import Mathlib

/-!
Verification of the procurement-notice pipeline (`licitacoes_pdf.py`).

The Python source is shallowly embedded: each relevant Python function is
translated into an executable Lean definition of the same name.  Python
`None`-able values become `Option`, Python `float` money values become `Rat`
(the program only compares and formats them at two-decimal precision),
Python dicts whose keys matter become structures or association lists, and
Python truthiness tests (`if not s`, `or`) are modelled by explicit helper
functions (`truthyStr`, `pyOrStr`, ...).
-/

namespace Podium

/-! ### Python-style string helpers -/

/-- Accent-folding of one character, modelling `unicodedata.normalize("NFD", s)`
followed by dropping combining marks and `str.lower()` (`nlower` in the
source).  The table covers the Latin repertoire actually used by the
program and its data (Portuguese accented vowels, cedilla, tilde). -/
def foldChar (c : Char) : List Char :=
  if c = 'Á' ∨ c = 'À' ∨ c = 'Â' ∨ c = 'Ã' ∨ c = 'Ä' ∨
     c = 'á' ∨ c = 'à' ∨ c = 'â' ∨ c = 'ã' ∨ c = 'ä' then ['a']
  else if c = 'É' ∨ c = 'È' ∨ c = 'Ê' ∨ c = 'Ë' ∨
          c = 'é' ∨ c = 'è' ∨ c = 'ê' ∨ c = 'ë' then ['e']
  else if c = 'Í' ∨ c = 'Ì' ∨ c = 'Î' ∨ c = 'Ï' ∨
          c = 'í' ∨ c = 'ì' ∨ c = 'î' ∨ c = 'ï' then ['i']
  else if c = 'Ó' ∨ c = 'Ò' ∨ c = 'Ô' ∨ c = 'Õ' ∨ c = 'Ö' ∨
          c = 'ó' ∨ c = 'ò' ∨ c = 'ô' ∨ c = 'õ' ∨ c = 'ö' then ['o']
  else if c = 'Ú' ∨ c = 'Ù' ∨ c = 'Û' ∨ c = 'Ü' ∨
          c = 'ú' ∨ c = 'ù' ∨ c = 'û' ∨ c = 'ü' then ['u']
  else if c = 'Ç' ∨ c = 'ç' then ['c']
  else if c = 'Ñ' ∨ c = 'ñ' then ['n']
  else [c.toLower]

/-- Case/diacritic folding of a string (`nlower` applied to a `str`). -/
def nlowerS (s : String) : String :=
  String.mk (s.data.flatMap foldChar)

/-- Source `nlower`: `None` maps to the empty string. -/
def nlower (s : Option String) : String :=
  match s with
  | none => ""
  | some s => nlowerS s

/-- Plain `str.lower()` (keeps accents), for the character repertoire used. -/
def pyLowerChar (c : Char) : Char :=
  if c = 'Á' then 'á' else if c = 'À' then 'à' else if c = 'Â' then 'â'
  else if c = 'Ã' then 'ã' else if c = 'Ä' then 'ä'
  else if c = 'É' then 'é' else if c = 'È' then 'è' else if c = 'Ê' then 'ê'
  else if c = 'Ë' then 'ë'
  else if c = 'Í' then 'í' else if c = 'Ì' then 'ì' else if c = 'Î' then 'î'
  else if c = 'Ï' then 'ï'
  else if c = 'Ó' then 'ó' else if c = 'Ò' then 'ò' else if c = 'Ô' then 'ô'
  else if c = 'Õ' then 'õ' else if c = 'Ö' then 'ö'
  else if c = 'Ú' then 'ú' else if c = 'Ù' then 'ù' else if c = 'Û' then 'û'
  else if c = 'Ü' then 'ü'
  else if c = 'Ç' then 'ç' else if c = 'Ñ' then 'ñ'
  else c.toLower

/-- Python `s.lower()`. -/
def pyLowerS (s : String) : String :=
  String.mk (s.data.map pyLowerChar)

/-- Python `s.upper()` (only ASCII letters occur in the strings it is
applied to: state codes). -/
def pyUpperS (s : String) : String :=
  String.mk (s.data.map Char.toUpper)

/-- Boolean test that `needle` occurs contiguously inside `hay`. -/
def infixOfB (needle : List Char) : List Char → Bool
  | [] => needle.isPrefixOf []
  | c :: rest => needle.isPrefixOf (c :: rest) || infixOfB needle rest

/-- Python substring test `needle in hay` / `hay.find(needle) >= 0`. -/
def pyContains (hay needle : String) : Bool :=
  infixOfB needle.data hay.data

/-- Python truthiness of an optional string (`None` and `""` are falsy). -/
def truthyStr (s : Option String) : Bool :=
  match s with
  | none => false
  | some s => s ≠ ""

/-- Python truthiness of an optional integer (`None` and `0` are falsy). -/
def truthyInt (n : Option Int) : Bool :=
  match n with
  | none => false
  | some n => n ≠ 0

/-- Python `a or b` on optional strings (first operand wins when truthy). -/
def pyOrStr (a b : Option String) : Option String :=
  if truthyStr a then a else b

/-- Python `a or b` where the right operand is a plain string default. -/
def pyOrStrD (a : Option String) (b : String) : String :=
  match a with
  | some s => if s = "" then b else s
  | none => b

/-- Python `str(x)` for an optional integer field interpolated into an
f-string (`None` prints as `"None"`). -/
def pyStrOfOptInt (n : Option Int) : String :=
  match n with
  | none => "None"
  | some n => toString n

/-! ### Money formatting and parsing -/

/-- The character of a decimal digit. -/
def digitChar (n : Nat) : Char :=
  Char.ofNat (48 + n)

/-- Decimal rendering with explicit fuel (structural recursion so that
concrete renderings reduce definitionally); adequate whenever
`n ≤ fuel`. -/
def natToDigitsGo : Nat → Nat → List Char
  | 0, n => [digitChar n]
  | fuel + 1, n =>
    if n < 10 then [digitChar n]
    else natToDigitsGo fuel (n / 10) ++ [digitChar (n % 10)]

/-- Decimal rendering of a natural number, exactly the digit sequence a
Python f-string emits. -/
def natToDigits (n : Nat) : List Char :=
  natToDigitsGo n n

/-- Insert a separator after every three characters of a reversed digit
list (grouping from the right). -/
def group3rev : List Char → List Char
  | a :: b :: c :: d :: rest => a :: b :: c :: '.' :: group3rev (d :: rest)
  | l => l

/-- Brazilian thousands grouping of an integer digit string (the result
of the `,` grouping of `f"{v:,.2f}"` after the source swaps `,`/`.`). -/
def groupThousands (l : List Char) : List Char :=
  (group3rev l.reverse).reverse

/-- The two zero-padded fraction digits of a cent amount. -/
def twoDigits (n : Nat) : List Char :=
  [digitChar (n / 10 % 10), digitChar (n % 10)]

/-- Source `fmt_money_br`, modelled at exact cent precision:
`f"R$ {v:,.2f}"` followed by the source's swap of `,` and `.`.  Rounding
to cents is written as round-half-up; Python rounds the nearest double
half-to-even, which agrees on every exact-cent value (the only inputs the
round-trip property concerns).  The `-0.00` display edge of tiny negative
floats is likewise outside the modelled domain. -/
def fmt_money_br (v : Option Rat) : String :=
  match v with
  | none => "—"
  | some x =>
    let cents : Int := (x * 100 + 1 / 2).floor
    let sign := if cents < 0 then "-" else ""
    "R$ " ++ sign ++ String.mk (groupThousands (natToDigits
      (cents.natAbs / 100))) ++ "," ++ String.mk (twoDigits
      (cents.natAbs % 100))

/-- Numeric value of a digit string. -/
def natVal (l : List Char) : Nat :=
  l.foldl (fun n c => n * 10 + (c.toNat - 48)) 0

/-- Split a character list at every `'.'`. -/
def splitDots : List Char → List (List Char)
  | [] => [[]]
  | c :: rest =>
    if c = '.' then [] :: splitDots rest
    else
      match splitDots rest with
      | s :: ss => (c :: s) :: ss
      | [] => [[c]]

/-- Python `float(s)` restricted to the character repertoire that can
reach it in `money_br_to_number` (digits and dots after the separator
rewriting): an optional integer part and an optional fraction part
around at most one dot, with at least one digit in total. -/
def pyFloat (l : List Char) : Option Rat :=
  match splitDots l with
  | [d] =>
    if d ≠ [] ∧ d.all (·.isDigit) then some (natVal d) else none
  | [a, b] =>
    if (a ++ b) ≠ [] ∧ a.all (·.isDigit) ∧ b.all (·.isDigit) then
      some ((natVal a : Rat) + (natVal b : Rat) / 10 ^ b.length)
    else none
  | _ => none

/-- Source `money_br_to_number`: strip everything but digits and
separators, drop the thousands dots, turn the decimal comma into a dot,
then parse as a float; any failure gives `None`. -/
def money_br_to_number (s : Option String) : Option Rat :=
  match s with
  | none => none
  | some s =>
    if s = "" then none
    else
      pyFloat (((s.data.filter (fun c => c.isDigit || c = ',' || c = '.'))
        |>.filter (fun c => c ≠ '.'))
        |>.map (fun c => if c = ',' then '.' else c))

/-! ### Data model (`dataclass`es of the source) -/

/-- Source dataclass `Unidade`. -/
structure Unidade where
  codigo : Option String := none
  nome : Option String := none
  uf : Option String := none
deriving DecidableEq, Repr

/-- Source dataclass `Orgao`. -/
structure Orgao where
  cnpj : Option String := none
  razaoSocial : Option String := none
deriving DecidableEq, Repr

/-- The `analise` dict attached to each result (keys `score`,
`recomendacao`, `motivo`; a missing key is `none`). -/
structure Analise where
  score : Option Int := none
  recomendacao : Option String := none
  motivo : Option String := none
deriving DecidableEq, Repr

/-- Source dataclass `Resultado` (the canonical Notice). -/
structure Resultado where
  numeroControlePNCP : Option String := none
  numeroCompra : Option String := none
  anoCompra : Option Int := none
  modalidadeId : Option Int := none
  modalidadeNome : Option String := none
  modoDisputaId : Option Int := none
  modoDisputaNome : Option String := none
  situacaoCompraId : Option Int := none
  situacaoCompraNome : Option String := none
  objetoCompra : Option String := none
  valorEstimado : Option Rat := none
  dataAberturaProposta : Option String := none
  dataEncerramentoProposta : Option String := none
  dataPublicacaoPncp : Option String := none
  orgao : Orgao := {}
  unidade : Unidade := {}
  linkSistemaOrigem : Option String := none
  analise : Analise := {}
  processo : Option String := some ""
  tipoJulgamento : Option String := some "Menor Preço (quando aplicável)"
  sistema : Option String := some "PNCP / Compras públicas"
  leiAplicavel : Option String := some "Lei 14.133/2021"
  inicioDisputa : Option String := some ""
deriving DecidableEq, Repr

/-- The `filtros` dict as built in `main` (keys `palavra`, `uf`, `orgao`,
`minValor`; the unset encodings are `""` and `0`, exactly the falsy values
`decide_score` collapses missing keys to). -/
structure Filtros where
  palavra : String := ""
  uf : String := ""
  orgao : String := ""
  minValor : Rat := 0
deriving DecidableEq, Repr

/-! ### Scorer / classifier (`decide_score`) -/

/-- The local `bloqueiaBahia` condition of `decide_score`. -/
def bloqueiaBahia (obj : Resultado) : Bool :=
  (pyUpperS (obj.unidade.uf.getD "") = "BA") ||
    pyContains (nlower obj.orgao.razaoSocial) "bahia"

/-- Source `decide_score`: returns `(score, recomendacao, motivo)`. -/
def decide_score (obj : Resultado) (filtros : Filtros) :
    Int × String × Option String :=
  let palavra := filtros.palavra
  let uf := filtros.uf
  let orgao_f := filtros.orgao
  let minValor := filtros.minValor
  let passaPalavra := if palavra = "" then true else
    pyContains (nlower obj.objetoCompra) (nlowerS palavra)
  let passaUf := if uf = "" then true else
    pyUpperS (obj.unidade.uf.getD "") = pyUpperS uf
  let passaOrgao := if orgao_f = "" then true else
    pyContains (nlower obj.orgao.razaoSocial) (nlowerS orgao_f)
  let passaValor := if minValor = 0 then true else
    obj.valorEstimado.getD 0 ≥ minValor
  let score : Int := (if passaPalavra then 35 else 0) + (if passaUf then 20 else 0)
    + (if passaOrgao then 10 else 0) + (if passaValor then 35 else 0)
  if bloqueiaBahia obj then
    (score, "descartar", some "Excluído: órgão/UF Bahia")
  else if score ≥ 70 then
    (score, "prosseguir", none)
  else
    (score, "avaliar", none)

/-! ### Record normalizer (`normalize_results`) -/

/-- The `orgaoEntidade` sub-dict of a raw PNCP record. -/
structure RawOrgao where
  cnpj : Option String := none
  razaoSocial : Option String := none
  nome : Option String := none
deriving DecidableEq, Repr

/-- The `unidadeOrgao` sub-dict of a raw PNCP record. -/
structure RawUnidade where
  codigoUnidade : Option String := none
  nome : Option String := none
  uf : Option String := none
deriving DecidableEq, Repr

/-- One raw record from the PNCP listing (the keys `normalize_results`
reads; a missing key is `none`).  `valorEstimado` arrives as a number or
null: the source's `float(...)` conversion is the identity here. -/
structure RawRecord where
  numeroControlePNCP : Option String := none
  numeroCompra : Option String := none
  anoCompra : Option Int := none
  modalidadeId : Option Int := none
  modalidadeNome : Option String := none
  modoDisputaId : Option Int := none
  modoDisputaNome : Option String := none
  situacaoCompraId : Option Int := none
  situacaoCompraNome : Option String := none
  objetoCompra : Option String := none
  valorEstimado : Option Rat := none
  dataAberturaProposta : Option String := none
  dataEncerramentoProposta : Option String := none
  dataPublicacaoPncp : Option String := none
  orgaoEntidade : Option RawOrgao := none
  unidadeOrgao : Option RawUnidade := none
  linkSistemaOrigem : Option String := none
deriving DecidableEq, Repr

/-- Normalization of one raw record (the loop body of `normalize_results`),
including the `decide_score` call that populates `analise`. -/
def normalize_one (i : RawRecord) (filtros : Filtros) : Resultado :=
  let oe := i.orgaoEntidade.getD {}
  let uo := i.unidadeOrgao.getD {}
  let nomeOrgao := pyOrStrD oe.razaoSocial (pyOrStrD oe.nome "")
  let nomeUnidade := pyOrStrD uo.nome ""
  let ufItem := pyOrStrD uo.uf ""
  let objeto := pyOrStrD i.objetoCompra ""
  let res : Resultado :=
    { numeroControlePNCP := i.numeroControlePNCP
      numeroCompra := i.numeroCompra
      anoCompra := i.anoCompra
      modalidadeId := i.modalidadeId
      modalidadeNome := i.modalidadeNome
      modoDisputaId := i.modoDisputaId
      modoDisputaNome := i.modoDisputaNome
      situacaoCompraId := i.situacaoCompraId
      situacaoCompraNome := i.situacaoCompraNome
      objetoCompra := some objeto
      valorEstimado := i.valorEstimado
      dataAberturaProposta := i.dataAberturaProposta
      dataEncerramentoProposta := i.dataEncerramentoProposta
      dataPublicacaoPncp := i.dataPublicacaoPncp
      orgao := { cnpj := oe.cnpj, razaoSocial := some nomeOrgao }
      unidade := { codigo := uo.codigoUnidade, nome := some nomeUnidade,
                   uf := some ufItem }
      linkSistemaOrigem := i.linkSistemaOrigem }
  let sc := decide_score res filtros
  { res with analise :=
      { score := some sc.1
        recomendacao := some sc.2.1
        motivo := if truthyStr sc.2.2 then sc.2.2 else none } }

/-- Source `normalize_results`. -/
def normalize_results (arr : List RawRecord) (filtros : Filtros) :
    List Resultado :=
  arr.map (fun i => normalize_one i filtros)

/-! ### Hard keyword filter and "at least one proceed" backstop (`main`) -/

/-- The synonym vocabulary of `_is_softwareish` in `main`. -/
def softwareVocab : List String :=
  ["software", "sistema", "aplicativo", "plataforma", "licenca", "licenças",
   "ti", "informatica", "tecnologia da informacao", "nuvem", "cloud", "erp",
   "crm", "banco de dados", "portal", "web", "site", "backup",
   "seguranca da informacao"]

/-- Local `_is_softwareish` of `main`. -/
def is_softwareish (text : Option String) : Bool :=
  softwareVocab.any (fun w => pyContains (nlower text) w)

/-- The special keywords that trigger the synonym branch of the hard
keyword filter in `main`. -/
def softwareKeywords : List String :=
  ["software", "ti", "informatica", "tecnologia da informacao"]

/-- The hard keyword filter applied in `main` right after normalization
(`if args.palavra: ...`). -/
def hard_keyword_filter (palavra : String) (resultados : List Resultado) :
    List Resultado :=
  if palavra = "" then resultados
  else
    let p := nlowerS palavra
    if p ∈ softwareKeywords then
      resultados.filter (fun r => is_softwareish r.objetoCompra)
    else
      resultados.filter (fun r => pyContains (nlower r.objetoCompra) p)

/-- Sort key `_score_key` of the backstop in `main`. -/
def score_key (palavra : String) (r : Resultado) : Int :=
  let base := r.analise.score.getD 0
  let bonus : Int :=
    if palavra ≠ "" ∧ pyContains (nlower r.objetoCompra) (nlowerS palavra)
    then 10 else 0
  base + bonus

/-- Index of the first element attaining the maximum of `f`, mirroring
Python `max(xs, key=f)` which returns the first maximal element.
Returns the pair (index, maximum). -/
def firstMaxIdx (f : Resultado → Int) : List Resultado → Option (Nat × Int)
  | [] => none
  | r :: rest =>
    match firstMaxIdx f rest with
    | none => some (0, f r)
    | some (i, m) => if f r ≥ m then some (0, f r) else some (i + 1, m)

/-- Update of the element at index `i` of a list. -/
def updAt (l : List Resultado) (i : Nat) (f : Resultado → Resultado) :
    List Resultado :=
  match l[i]? with
  | some r => l.set i (f r)
  | none => l

/-- The in-place mutation the backstop applies to the best-scoring
notice: `recomendacao := "prosseguir"`, `score := max(80, score)`. -/
def force_prosseguir (r : Resultado) : Resultado :=
  { r with analise :=
      { r.analise with
        recomendacao := some "prosseguir"
        score := some (max 80 (r.analise.score.getD 0)) } }

/-- The "garantir ao menos 1 prosseguir" backstop of `main`. -/
def backstop (palavra : String) (resultados : List Resultado) :
    List Resultado :=
  if resultados.isEmpty then resultados
  else if resultados.any
      (fun r => r.analise.recomendacao = some "prosseguir") then resultados
  else
    match firstMaxIdx (score_key palavra) resultados with
    | some im => updAt resultados im.1 force_prosseguir
    | none => resultados

/-- Composition of the local stages of `main` up to the backstop:
normalization (with scoring), the hard keyword filter, then the
at-least-one-proceed backstop.  `filtros.palavra` is `args.palavra`. -/
def local_pipeline (arr : List RawRecord) (filtros : Filtros) :
    List Resultado :=
  backstop filtros.palavra
    (hard_keyword_filter filtros.palavra (normalize_results arr filtros))

/-! ### Helper lemmas about `decide_score` -/

/-- An `if P then true else c` test is true exactly when `P` holds or `c`
does; stated at the level of the weight it contributes. -/
theorem weight_if (P : Prop) [Decidable P] (c : Bool) (w : Int) :
    (if (if P then true else c) then w else 0) =
      (if P ∨ c = true then w else 0) := by
  by_cases h : P <;> cases c <;> simp [h]

/-- First projection of the three-way branch of `decide_score`: every
branch carries the same score. -/
theorem fst_ite3 (b : Bool) (P : Prop) [Decidable P] (s : Int)
    (p q w : String × Option String) :
    (if b then (s, p) else if P then (s, q) else (s, w)).1 = s := by
  cases b <;> by_cases h : P <;> simp [h]

/-- Recommendation of the non-excluded branch of `decide_score` as a
function of the score. -/
theorem rec_ite (s : Int) :
    ((if s ≥ 70 then (s, "prosseguir", (none : Option String))
        else (s, "avaliar", none)).2.1 = "prosseguir" ↔ s ≥ 70)
    ∧ ((if s ≥ 70 then (s, "prosseguir", (none : Option String))
        else (s, "avaliar", none)).2.1 = "avaliar" ↔ s < 70) := by
  by_cases h : s ≥ 70 <;> (simp [h]; try omega)

/-- First projection of a two-way branch whose branches share a score. -/
theorem fst_ite2 (P : Prop) [Decidable P] (s : Int)
    (p q : String × Option String) :
    (if P then (s, p) else (s, q)).1 = s := by
  split <;> rfl

/-- The `bloqueiaBahia` test ignores the `analise` field. -/
theorem bloqueiaBahia_analise (r : Resultado) (a : Analise) :
    bloqueiaBahia { r with analise := a } = bloqueiaBahia r := rfl

/-! ### Claim C2 -/

/-- C2: `decide_score` returns exactly the sum of the four
satisfied-or-absent filter weights (keyword 35, state 20, agency 10,
value 35, an unset filter always contributing); when the exclusion rule
does not fire the recommendation is `"prosseguir"` iff the score is at
least 70 and `"avaliar"` otherwise; with all filter components unset the
score is 100 and the classification is `"prosseguir"` unless the
exclusion rule fires. -/
theorem C2_theorem (obj : Resultado) (f : Filtros) :
    (decide_score obj f).1 =
      (if f.palavra = "" ∨
          pyContains (nlower obj.objetoCompra) (nlowerS f.palavra) = true
        then 35 else 0)
      + (if f.uf = "" ∨ pyUpperS (obj.unidade.uf.getD "") = pyUpperS f.uf
        then 20 else 0)
      + (if f.orgao = "" ∨
          pyContains (nlower obj.orgao.razaoSocial) (nlowerS f.orgao) = true
        then 10 else 0)
      + (if f.minValor = 0 ∨ obj.valorEstimado.getD 0 ≥ f.minValor
        then 35 else 0)
    ∧ (bloqueiaBahia obj = false →
        ((decide_score obj f).2.1 = "prosseguir" ↔ (decide_score obj f).1 ≥ 70)
        ∧ ((decide_score obj f).2.1 = "avaliar" ↔ (decide_score obj f).1 < 70))
    ∧ (f = {} → (decide_score obj f).1 = 100 ∧
        (bloqueiaBahia obj = false →
          (decide_score obj f).2.1 = "prosseguir")) := by
  have hfst : ∀ g : Filtros, (decide_score obj g).1 =
      (if (if g.palavra = "" then true
          else pyContains (nlower obj.objetoCompra) (nlowerS g.palavra))
        then (35 : Int) else 0)
      + (if (if g.uf = "" then true
          else pyUpperS (obj.unidade.uf.getD "") = pyUpperS g.uf)
        then 20 else 0)
      + (if (if g.orgao = "" then true
          else pyContains (nlower obj.orgao.razaoSocial) (nlowerS g.orgao))
        then 10 else 0)
      + (if (if g.minValor = 0 then true
          else obj.valorEstimado.getD 0 ≥ g.minValor)
        then 35 else 0) := by
    intro g
    simp only [decide_score]
    rw [fst_ite3]
  have hrec : ∀ g : Filtros, bloqueiaBahia obj = false →
      ((decide_score obj g).2.1 = "prosseguir" ↔ (decide_score obj g).1 ≥ 70)
      ∧ ((decide_score obj g).2.1 = "avaliar" ↔ (decide_score obj g).1 < 70)
      := by
    intro g hb
    simp only [decide_score, hb, Bool.false_eq_true, if_false]
    rw [fst_ite2]
    exact rec_ite _
  refine ⟨?_, hrec f, ?_⟩
  · rw [hfst]
    simp only [weight_if, decide_eq_true_eq]
  · rintro rfl
    have h100 : (decide_score obj {}).1 = 100 := by
      rw [hfst]
      norm_num
    refine ⟨h100, fun hb => ?_⟩
    exact ((hrec {} hb).1).mpr (by rw [h100]; norm_num)

/-- Sample notice for the C2 witness. -/
def c2obj : Resultado :=
  { objetoCompra := some "Aquisição de software",
    unidade := { uf := some "SP" },
    valorEstimado := some 100000 }

/-- Sample filters for the C2 witness (agency filter set and unmatched,
so the score is 90, not 100). -/
def c2filtros : Filtros :=
  { palavra := "software", uf := "sp", orgao := "prefeitura",
    minValor := 50000 }

/-- Witness for C2 at a concrete notice and concrete filters. -/
theorem C2_witness :
    (decide_score c2obj c2filtros).1 = 90
    ∧ (decide_score c2obj {}).1 = 100
    ∧ (decide_score c2obj {}).2.1 = "prosseguir" := by
  have h1 := C2_theorem c2obj c2filtros
  have h2 := C2_theorem c2obj {}
  refine ⟨?_, (h2.2.2 rfl).1, (h2.2.2 rfl).2 (by decide)⟩
  rw [h1.1]
  decide

/-! ### Claim C3 -/

/-- C3: whenever the hard exclusion condition holds (state `"BA"` or the
agency legal name contains `"bahia"` after folding), `decide_score`
classifies the notice `"descartar"` with the explicit reason, whatever
the filters and hence whatever the computed score. -/
theorem C3_theorem (obj : Resultado) (f : Filtros)
    (h : bloqueiaBahia obj = true) :
    (decide_score obj f).2.1 = "descartar" ∧
      (decide_score obj f).2.2 = some "Excluído: órgão/UF Bahia" := by
  simp [decide_score, h]

/-- Sample notice for the C3 witness: in Bahia, with a perfect score. -/
def c3obj : Resultado :=
  { objetoCompra := some "obra", unidade := { uf := some "BA" } }

/-- Witness for C3: a Bahia notice whose score would otherwise be 100 is
still discarded. -/
theorem C3_witness :
    (decide_score c3obj {}).2.1 = "descartar"
    ∧ (decide_score c3obj {}).2.2 = some "Excluído: órgão/UF Bahia"
    ∧ (decide_score c3obj {}).1 = 100 := by
  have h := C3_theorem c3obj {} (by decide)
  exact ⟨h.1, h.2, by decide⟩

/-! ### Claim C1 -/

/-- Raw record used in the C1 counterexample: a Bahia notice, the only
result of the run. -/
def c1raw : RawRecord :=
  { objetoCompra := some "obra", numeroControlePNCP := some "X",
    unidadeOrgao := some { uf := some "BA" } }

/-- C1 counterexample: with a single Bahia notice and no filters, the
"at least one proceed" backstop of `main` overrides the hard exclusion:
after the backstop the notice simultaneously has recommendation
`"prosseguir"` and the exclusion reason, refuting the claim that at
every stage of the pipeline exclusion wins. -/
theorem C1_counterexample :
    (local_pipeline [c1raw] {}).map
        (fun r => (bloqueiaBahia r, r.analise.recomendacao, r.analise.motivo))
      = [(true, some "prosseguir", some "Excluído: órgão/UF Bahia")] := by
  decide

/-- C1 amended: after the scoring stage (`normalize_results`) the
invariant holds — every notice caught by the exclusion rule carries
recommendation `"descartar"` and the exclusion reason — and the backstop
leaves the sequence untouched (hence preserves the invariant) whenever
some notice already carries recommendation `"prosseguir"`.  (The
counterexample shows the backstop violates the invariant when no notice
does; reconciliation never writes to the local `analise`.) -/
theorem C1_theorem (arr : List RawRecord) (f : Filtros)
    (rs : List Resultado) (palavra : String) :
    (∀ r ∈ normalize_results arr f, bloqueiaBahia r = true →
        r.analise.recomendacao = some "descartar" ∧
          r.analise.motivo = some "Excluído: órgão/UF Bahia")
    ∧ ((∃ r ∈ rs, r.analise.recomendacao = some "prosseguir") →
        backstop palavra rs = rs) := by
  constructor
  · intro r hr hb
    simp only [normalize_results, List.mem_map] at hr
    obtain ⟨i, _, rfl⟩ := hr
    rw [normalize_one] at hb ⊢
    rw [bloqueiaBahia_analise] at hb
    simp only [decide_score, hb, if_true]
    constructor <;> trivial
  · rintro ⟨r, hr, hrec⟩
    rw [backstop]
    rw [if_neg, if_pos]
    · exact List.any_eq_true.mpr ⟨r, hr, by simp [hrec]⟩
    · simp [List.isEmpty_iff, List.ne_nil_of_mem hr]

/-- Witness for C1's amended statement: a normalized Bahia record is
discarded with the reason, and a list that already contains a
`"prosseguir"` notice passes the backstop unchanged. -/
theorem C1_witness :
    ((normalize_one c1raw {}).analise.recomendacao = some "descartar"
      ∧ (normalize_one c1raw {}).analise.motivo =
          some "Excluído: órgão/UF Bahia")
    ∧ backstop ""
        [{ analise := { score := some 80,
                        recomendacao := some "prosseguir" } }] =
        [{ analise := { score := some 80,
                        recomendacao := some "prosseguir" } }] := by
  constructor
  · exact (C1_theorem [c1raw] {} [] "").1 (normalize_one c1raw {})
      (by simp [normalize_results]) (by decide)
  · exact (C1_theorem [] {}
      [{ analise := { score := some 80,
                      recomendacao := some "prosseguir" } }] "").2
      ⟨_, List.mem_singleton.mpr rfl, rfl⟩

/-! ### Claim C10 -/

/-- C10: when the folded active keyword is one of the special software
keywords, the hard keyword filter of `main` keeps exactly the notices
whose folded object description contains some member of the synonym
vocabulary — in particular every notice containing a synonym is kept even
if the literal keyword is absent; for any other active keyword it keeps
exactly the notices whose folded object description contains the folded
keyword. -/
theorem C10_theorem (palavra : String) (rs : List Resultado) :
    (nlowerS palavra ∈ softwareKeywords →
      hard_keyword_filter palavra rs =
        rs.filter (fun r => is_softwareish r.objetoCompra)
      ∧ ∀ r ∈ rs,
          (∃ w ∈ softwareVocab, pyContains (nlower r.objetoCompra) w = true) →
          r ∈ hard_keyword_filter palavra rs)
    ∧ (palavra ≠ "" → nlowerS palavra ∉ softwareKeywords →
        hard_keyword_filter palavra rs =
          rs.filter (fun r =>
            pyContains (nlower r.objetoCompra) (nlowerS palavra))) := by
  constructor
  · intro hsp
    have hpal : palavra ≠ "" := by
      intro h
      rw [h] at hsp
      exact absurd hsp (by decide)
    have heq : hard_keyword_filter palavra rs =
        rs.filter (fun r => is_softwareish r.objetoCompra) := by
      rw [hard_keyword_filter, if_neg hpal, if_pos hsp]
    refine ⟨heq, fun r hr hex => ?_⟩
    rw [heq]
    refine List.mem_filter.mpr ⟨hr, ?_⟩
    obtain ⟨w, hw, hc⟩ := hex
    exact List.any_eq_true.mpr ⟨w, hw, hc⟩
  · intro hpal hnot
    rw [hard_keyword_filter, if_neg hpal, if_neg hnot]

/-- Sample software-ish notice for the C10 witness (contains a synonym,
not the literal keyword). -/
def c10sw : Resultado :=
  { objetoCompra := some "Contratação de plataforma em nuvem",
    numeroControlePNCP := some "A" }

/-- Sample non-software notice for the C10 witness. -/
def c10other : Resultado :=
  { objetoCompra := some "Reforma de telhado",
    numeroControlePNCP := some "B" }

/-- Witness for C10: the special keyword `"TI"` (folded to `"ti"`) keeps
the synonym-bearing notice and drops the other; the ordinary keyword
`"merenda"` keeps nothing here. -/
theorem C10_witness :
    hard_keyword_filter "TI" [c10sw, c10other] = [c10sw]
    ∧ hard_keyword_filter "merenda" [c10sw, c10other] = [] := by
  have h1 := ( C10_theorem "TI" [c10sw, c10other]).1 (by decide)
  have h2 := ( C10_theorem "merenda" [c10sw, c10other]).2 (by decide)
    (by decide)
  exact ⟨h1.1.trans (by decide), h2.trans (by decide)⟩

/-! ### URL scheme test (used by the Document Discoverer claims) -/

/-- Longest alphabetic prefix of a character list, with the remainder. -/
def takeAlpha : List Char → List Char × List Char
  | [] => ([], [])
  | c :: cs =>
    if c.isAlpha then
      let p := takeAlpha cs
      (c :: p.1, p.2)
    else ([], c :: cs)

/-- Absolute-URL test: the string starts with an alphabetic scheme
followed by `"://"` (the `^[a-z]+://` test of `normalize_url`, with
`re.I`). -/
def hasScheme (s : String) : Bool :=
  let p := takeAlpha s.data
  !p.1.isEmpty && (p.2.take 3 = [':', '/', '/'])

/-! ### Document verification (`ensure_pdf_url`) -/

/-- An HTTP response as seen by `ensure_pdf_url`: the final URL after
redirects and the `Content-Type` header (missing header is `""`). -/
structure HttpResp where
  url : String
  contentType : String
deriving DecidableEq, Repr

/-- The network environment: what `requests.head` and `requests.get`
return for a given URL; `none` models a raised exception. -/
structure Net where
  head : String → Option HttpResp
  get : String → Option HttpResp

/-- Source `ensure_pdf_url`: verify a candidate URL by Content-Type,
preferring HEAD and falling back to GET; any exception yields `None`. -/
def ensure_pdf_url (net : Net) (u : Option String) : Option String :=
  if truthyStr u = false then none
  else
    match net.head (u.getD "") with
    | none => none
    | some hr =>
      if pyContains (pyLowerS hr.contentType) "application/pdf" then
        some hr.url
      else
        match net.get (u.getD "") with
        | none => none
        | some gr =>
          if pyContains (pyLowerS gr.contentType) "application/pdf" then
            some gr.url
          else none

/-- The acceptance line of `main` (`edital_url = ensure_pdf_url(ed) or
ed`, likewise for the annex): falls back to the unverified discovered
candidate when verification fails. -/
def accept_discovered_url (net : Net) (ed : Option String) : Option String :=
  pyOrStr (ensure_pdf_url net ed) ed

/-- Network environment for the C4 counterexample: both probes resolve to
an HTML page, so verification fails. -/
def c4netHtml : Net :=
  { head := fun _ => some { url := "http://x/a", contentType := "text/html" }
    get := fun _ => some { url := "http://x/a", contentType := "text/html" } }

/-- C4 counterexample: a discovered candidate that fails content-type
verification is not discarded — `main` falls back to the unverified URL
(`ensure_pdf_url(ed) or ed`), so the URL accepted into enrichment did not
pass verification. -/
theorem C4_counterexample :
    ensure_pdf_url c4netHtml (some "http://x/a") = none
    ∧ accept_discovered_url c4netHtml (some "http://x/a") =
        some "http://x/a" := by
  exact ⟨rfl, rfl⟩

/-- C4 amended: any URL returned by `ensure_pdf_url` itself comes from a
HEAD or GET response whose content type contains `application/pdf`, and
is that response's final URL — absolute whenever the HTTP client reports
absolute final URLs; however (see the counterexample) enrichment in
`main` falls back to the unverified candidate when verification fails. -/
theorem C4_theorem (net : Net) (u : Option String) (v : String)
    (h : ensure_pdf_url net u = some v) :
    (∃ resp : HttpResp,
      (net.head (u.getD "") = some resp ∨ net.get (u.getD "") = some resp)
      ∧ pyContains (pyLowerS resp.contentType) "application/pdf" = true
      ∧ v = resp.url)
    ∧ ((∀ s r, net.head s = some r → hasScheme r.url = true) →
        (∀ s r, net.get s = some r → hasScheme r.url = true) →
        hasScheme v = true) := by
  rw [ensure_pdf_url] at h
  split at h
  · exact absurd h (by simp)
  · have hmain : ∃ resp : HttpResp,
        (net.head (u.getD "") = some resp ∨ net.get (u.getD "") = some resp)
        ∧ pyContains (pyLowerS resp.contentType) "application/pdf" = true
        ∧ v = resp.url := by
      rcases hh : net.head (u.getD "") with _ | hr
      · rw [hh] at h
        exact absurd h (by simp)
      · rw [hh] at h
        dsimp only at h
        by_cases hct : pyContains (pyLowerS hr.contentType) "application/pdf"
          = true
        · rw [if_pos hct] at h
          exact ⟨hr, Or.inl rfl, hct, (Option.some_injective _ h).symm⟩
        · rw [if_neg hct] at h
          rcases hg : net.get (u.getD "") with _ | gr
          · rw [hg] at h
            exact absurd h (by simp)
          · rw [hg] at h
            dsimp only at h
            by_cases hct2 : pyContains (pyLowerS gr.contentType)
                "application/pdf" = true
            · rw [if_pos hct2] at h
              exact ⟨gr, Or.inr rfl, hct2, (Option.some_injective _ h).symm⟩
            · rw [if_neg hct2] at h
              exact absurd h (by simp)
    refine ⟨hmain, fun habs1 habs2 => ?_⟩
    obtain ⟨resp, hor, _, rfl⟩ := hmain
    rcases hor with hor | hor
    · exact habs1 _ _ hor
    · exact habs2 _ _ hor

/-- Network environment for the C4 witness: HEAD resolves to a PDF. -/
def c4netPdf : Net :=
  { head := fun _ =>
      some { url := "https://x/f.pdf", contentType := "application/pdf" }
    get := fun _ =>
      some { url := "https://x/f.pdf", contentType := "application/pdf" } }

/-- Witness for C4's amended statement at a concrete verifying
environment. -/
theorem C4_witness :
    (∃ resp : HttpResp,
      (c4netPdf.head "https://x/f.pdf" = some resp
        ∨ c4netPdf.get "https://x/f.pdf" = some resp)
      ∧ pyContains (pyLowerS resp.contentType) "application/pdf" = true
      ∧ "https://x/f.pdf" = resp.url)
    ∧ hasScheme "https://x/f.pdf" = true := by
  have h := C4_theorem c4netPdf (some "https://x/f.pdf") "https://x/f.pdf"
    rfl
  refine ⟨h.1, h.2 ?_ ?_⟩
  · intro s r hr
    injection hr with hr
    rw [hr.symm]
    decide
  · intro s r hr
    injection hr with hr
    rw [hr.symm]
    decide

/-! ### Per-notice content enrichment (`main`, extraction loop) -/

/-- Result of `extract_fields_from_pdf_text` (flattened: `obsPrazosPdf`
is the pair of its `abertura`/`encerramento` entries). -/
structure Extracted where
  objetoCompra : Option String := none
  valorEstimado : Option Rat := none
  obsAbertura : Option String := none
  obsEncerramento : Option String := none
deriving DecidableEq, Repr

/-- The overwrite block of `main` applied to one notice after PDF text
extraction (`if extracted.get(...)` guards). -/
def apply_extracted (ex : Extracted) (r : Resultado) : Resultado :=
  let r := if truthyStr ex.objetoCompra then
    { r with objetoCompra := ex.objetoCompra } else r
  let r := if ex.valorEstimado.isSome then
    { r with valorEstimado := ex.valorEstimado } else r
  let r := if truthyStr ex.obsAbertura ∧ ¬ truthyStr r.dataAberturaProposta
    then { r with dataAberturaProposta := ex.obsAbertura } else r
  let r := if truthyStr ex.obsEncerramento
      ∧ ¬ truthyStr r.dataEncerramentoProposta
    then { r with dataEncerramentoProposta := ex.obsEncerramento } else r
  r

/-- The HTML value fallback of `main`: only when the notice still has no
`valorEstimado` and the page markup is non-empty is the page-extracted
value (if any; an extraction exception behaves as `none`) written. -/
def apply_html_fallback (vHtml : Option Rat) (pageHtml : String)
    (r : Resultado) : Resultado :=
  if r.valorEstimado = none ∧ pageHtml ≠ "" then
    match vHtml with
    | some v => { r with valorEstimado := some v }
    | none => r
  else r

/-- One full pass of the per-notice enrichment loop body of `main`:
the PDF-extraction overwrites run only when a ConvertAPI token is
configured and some document URL was found; the HTML fallback always
runs afterwards. -/
def enrich_notice (doExtract : Bool) (ex : Extracted) (pageHtml : String)
    (vHtml : Option Rat) (r : Resultado) : Resultado :=
  apply_html_fallback vHtml pageHtml
    (if doExtract then apply_extracted ex r else r)

/-- A truthy optional string is not `none`. -/
theorem truthy_ne_none (a : Option String) (h : truthyStr a = true) :
    a ≠ none := by
  cases a <;> simp_all [truthyStr]

/-- Field equation: `apply_extracted` writes `valorEstimado` exactly when
the extracted value is non-null. -/
theorem ae_valor (ex : Extracted) (r : Resultado) :
    (apply_extracted ex r).valorEstimado =
      (if ex.valorEstimado.isSome then ex.valorEstimado
        else r.valorEstimado) := by
  simp only [apply_extracted]
  split_ifs <;> rfl

/-- Field equation: `apply_extracted` writes `objetoCompra` exactly when
the extracted description is truthy. -/
theorem ae_obj (ex : Extracted) (r : Resultado) :
    (apply_extracted ex r).objetoCompra =
      (if truthyStr ex.objetoCompra then ex.objetoCompra
        else r.objetoCompra) := by
  simp only [apply_extracted]
  split_ifs <;> rfl

/-- Field equation: `apply_extracted` keeps an already-truthy proposal
open date. -/
theorem ae_abertura (ex : Extracted) (r : Resultado)
    (h : truthyStr r.dataAberturaProposta = true) :
    (apply_extracted ex r).dataAberturaProposta =
      r.dataAberturaProposta := by
  simp only [apply_extracted]
  split_ifs <;> simp_all

/-- Field equation: `apply_extracted` keeps an already-truthy proposal
close date. -/
theorem ae_encerramento (ex : Extracted) (r : Resultado)
    (h : truthyStr r.dataEncerramentoProposta = true) :
    (apply_extracted ex r).dataEncerramentoProposta =
      r.dataEncerramentoProposta := by
  simp only [apply_extracted]
  split_ifs <;> simp_all

/-- The HTML fallback does nothing when the notice already has a
value. -/
theorem ahf_skip (vHtml : Option Rat) (pageHtml : String) (r : Resultado)
    (h : r.valorEstimado ≠ none) :
    apply_html_fallback vHtml pageHtml r = r := by
  rw [apply_html_fallback.eq_def, if_neg]
  simp [h]

/-- The HTML fallback only ever writes `valorEstimado`; every other field
is untouched. -/
theorem ahf_rest (vHtml : Option Rat) (pageHtml : String) (r : Resultado) :
    (apply_html_fallback vHtml pageHtml r).objetoCompra = r.objetoCompra
    ∧ (apply_html_fallback vHtml pageHtml r).dataAberturaProposta =
        r.dataAberturaProposta
    ∧ (apply_html_fallback vHtml pageHtml r).dataEncerramentoProposta =
        r.dataEncerramentoProposta := by
  rw [apply_html_fallback.eq_def]
  split
  · cases vHtml <;> exact ⟨rfl, rfl, rfl⟩
  · exact ⟨rfl, rfl, rfl⟩

/-! ### Claim C6 -/

/-- C6: enrichment is monotone.  For a notice that already has a value,
`valorEstimado` is never overwritten with `none` (when it changes, the
new value is the non-null extracted value); and for *every* notice, a
non-null `objetoCompra` is never nulled and the proposal date fields are
filled from extraction only when the notice does not already have
them. -/
theorem C6_theorem (doExtract : Bool) (ex : Extracted) (pageHtml : String)
    (vHtml : Option Rat) (r : Resultado) :
    (r.valorEstimado ≠ none →
      (enrich_notice doExtract ex pageHtml vHtml r).valorEstimado ≠ none
      ∧ ((enrich_notice doExtract ex pageHtml vHtml r).valorEstimado ≠
            r.valorEstimado →
          (enrich_notice doExtract ex pageHtml vHtml r).valorEstimado =
            ex.valorEstimado ∧ ex.valorEstimado ≠ none))
    ∧ (r.objetoCompra ≠ none →
        (enrich_notice doExtract ex pageHtml vHtml r).objetoCompra ≠ none)
    ∧ (truthyStr r.dataAberturaProposta = true →
        (enrich_notice doExtract ex pageHtml vHtml r).dataAberturaProposta =
          r.dataAberturaProposta)
    ∧ (truthyStr r.dataEncerramentoProposta = true →
        (enrich_notice doExtract ex pageHtml vHtml r).dataEncerramentoProposta
          = r.dataEncerramentoProposta) := by
  constructor
  · intro hval
    cases doExtract with
    | false =>
      simp only [enrich_notice, Bool.false_eq_true, if_false]
      rw [ahf_skip vHtml pageHtml r hval]
      exact ⟨hval, by simp⟩
    | true =>
      have hv1 : (apply_extracted ex r).valorEstimado ≠ none := by
        rw [ae_valor]
        split_ifs with h
        · cases hx : ex.valorEstimado
          · rw [hx] at h
            simp at h
          · simp
        · exact hval
      simp only [enrich_notice, eq_self_iff_true, if_true]
      rw [ahf_skip vHtml pageHtml _ hv1]
      refine ⟨hv1, ?_⟩
      intro hne
      rw [ae_valor] at hne ⊢
      split_ifs at hne ⊢ with h
      · exact ⟨rfl, by cases hx : ex.valorEstimado <;> simp_all⟩
      · exact absurd rfl hne
  · have hrest := ahf_rest vHtml pageHtml
      (if doExtract then apply_extracted ex r else r)
    refine ⟨?_, ?_, ?_⟩
    · intro hobj
      simp only [enrich_notice]
      rw [hrest.1]
      cases doExtract with
      | false => exact hobj
      | true =>
        rw [if_pos rfl, ae_obj]
        split_ifs with h
        · exact truthy_ne_none _ h
        · exact hobj
    · intro hd
      simp only [enrich_notice]
      rw [hrest.2.1]
      cases doExtract with
      | false => rw [if_neg Bool.false_ne_true]
      | true =>
        rw [if_pos rfl]
        exact ae_abertura ex r hd
    · intro hd
      simp only [enrich_notice]
      rw [hrest.2.2]
      cases doExtract with
      | false => rw [if_neg Bool.false_ne_true]
      | true =>
        rw [if_pos rfl]
        exact ae_encerramento ex r hd

/-- Witness for C6: a notice with an existing value, description and open
date keeps them against a null extraction, a non-null extracted value
replaces the old one, and a notice with a *null* value still keeps its
description and close date across an HTML-fallback write. -/
theorem C6_witness :
    (enrich_notice true {} "<html>" none
        { valorEstimado := some 10, objetoCompra := some "x",
          dataAberturaProposta := some "2025-01-01" }).valorEstimado ≠ none
    ∧ (enrich_notice true { valorEstimado := some 99 } "" none
        { valorEstimado := some 10, objetoCompra := some "x",
          dataAberturaProposta := some "2025-01-01" }).dataAberturaProposta =
        some "2025-01-01"
    ∧ (enrich_notice true {} "<p>" (some 5)
        { objetoCompra := some "y",
          dataEncerramentoProposta := some "2025-02-02" }).objetoCompra ≠ none
    ∧ (enrich_notice true {} "<p>" (some 5)
        { objetoCompra := some "y",
          dataEncerramentoProposta := some "2025-02-02"
        }).dataEncerramentoProposta = some "2025-02-02" := by
  refine ⟨((C6_theorem true {} "<html>" none
    { valorEstimado := some 10, objetoCompra := some "x",
      dataAberturaProposta := some "2025-01-01" }).1 (by decide)).1,
    ?_, ?_, ?_⟩
  · exact (C6_theorem true { valorEstimado := some 99 } "" none
      { valorEstimado := some 10, objetoCompra := some "x",
        dataAberturaProposta := some "2025-01-01" }).2.2.1 (by decide)
  · exact (C6_theorem true {} "<p>" (some 5)
      { objetoCompra := some "y",
        dataEncerramentoProposta := some "2025-02-02" }).2.1 (by decide)
  · exact (C6_theorem true {} "<p>" (some 5)
      { objetoCompra := some "y",
        dataEncerramentoProposta := some "2025-02-02" }).2.2.2 (by decide)

/-! ### External analysis feed (`ai` dict) -/

/-- One per-item payload of the feed (`ai["por_item"][key]`).  Each field
models a JSON key: the outer `Option` is key presence (`setdefault`
distinguishes it), the inner `Option` an explicit JSON `null`. -/
structure AiEntry where
  titulo : Option (Option String) := none
  pontos_positivos : Option (Option (List String)) := none
  riscos : Option (Option (List String)) := none
  valor_estimado_texto : Option (Option String) := none
  recomendacao : Option (Option String) := none
  score_ai : Option (Option Int) := none
deriving DecidableEq, Repr

/-- The feed's per-item mapping: a Python dict in insertion order with
distinct keys, modelled as an association list. -/
structure AiFeed where
  por_item : List (String × AiEntry) := []
deriving DecidableEq, Repr

/-- Source `key_candidates_for`: control number, then
`"numeroCompra/anoCompra"` (only when both truthy), then the bare
purchase number, with falsy entries dropped. -/
def key_candidates_for (r : Resultado) : List String :=
  let keys :=
    (if truthyStr r.numeroControlePNCP then [r.numeroControlePNCP.getD ""]
      else [])
    ++ (if truthyStr r.numeroCompra then
          (if truthyInt r.anoCompra then
            [(r.numeroCompra.getD "") ++ "/" ++ pyStrOfOptInt r.anoCompra]
          else [])
          ++ [r.numeroCompra.getD ""]
        else [])
  keys.filter (fun k => k ≠ "")

/-- Dict lookup `k in por_item` / `por_item[k]` over the association
list. -/
def assocFind : List (String × AiEntry) → String → Option AiEntry
  | [], _ => none
  | kv :: rest, key => if kv.1 = key then some kv.2 else assocFind rest key

/-- The fuzzy pass of `resolve_ai_item`: first entry whose key contains
the purchase number. -/
def fuzzyFind (nc : String) : List (String × AiEntry) → Option AiEntry
  | [] => none
  | kv :: rest => if pyContains kv.1 nc then some kv.2 else fuzzyFind nc rest

/-- Source `resolve_ai_item` (`none` is a falsy `ai`). -/
def resolve_ai_item (ai : Option AiFeed) (r : Resultado) : Option AiEntry :=
  match ai with
  | none => none
  | some a =>
    match (key_candidates_for r).findSome?
        (fun k => assocFind a.por_item k) with
    | some e => some e
    | none =>
      if truthyStr r.numeroCompra then
        fuzzyFind (r.numeroCompra.getD "") a.por_item
      else none

/-- A truthy optional string has a non-empty payload. -/
theorem truthy_getD_ne (s : Option String) (h : truthyStr s = true) :
    s.getD "" ≠ "" := by
  cases s <;> simp_all [truthyStr]

/-- A compound `"number/year"` key is never the empty string. -/
theorem compound_ne (a b : String) : a ++ "/" ++ b ≠ "" := by
  intro h
  have hd := congrArg String.data h
  simp [String.data_append] at hd

/-! ### Claim C5 -/

/-- C5: `resolve_ai_item` is the first success, in this fixed order, of:
exact feed lookup of the control number, exact lookup of
`"purchaseNumber/year"`, exact lookup of the bare purchase number, then
first feed key containing the purchase number (each strategy skipped when
its identity component is falsy); and in particular a feed entry keyed by
the control number `"PNCP-1"` wins over one keyed by the bare purchase
number `"90025"` when both exist. -/
theorem C5_theorem (a : AiFeed) (r : Resultado) :
    (resolve_ai_item (some a) r =
      ((((if truthyStr r.numeroControlePNCP then
            assocFind a.por_item (r.numeroControlePNCP.getD "") else none)
        <|> (if truthyStr r.numeroCompra ∧ truthyInt r.anoCompra then
            assocFind a.por_item
              ((r.numeroCompra.getD "") ++ "/" ++ pyStrOfOptInt r.anoCompra)
            else none))
        <|> (if truthyStr r.numeroCompra then
            assocFind a.por_item (r.numeroCompra.getD "") else none))
        <|> (if truthyStr r.numeroCompra then
            fuzzyFind (r.numeroCompra.getD "") a.por_item else none)))
    ∧ (∀ e1 e2 : AiEntry,
        resolve_ai_item
          (some { por_item := [("90025", e1), ("PNCP-1", e2)] })
          { numeroControlePNCP := some "PNCP-1",
            numeroCompra := some "90025", anoCompra := some 2025 }
          = some e2)
    ∧ resolve_ai_item (some a)
        { numeroControlePNCP := none, numeroCompra := none,
          anoCompra := none } = none := by
  refine ⟨?_, fun e1 e2 => rfl, rfl⟩
  cases h1 : truthyStr r.numeroControlePNCP <;>
    cases h2 : truthyStr r.numeroCompra <;>
    cases h3 : truthyInt r.anoCompra <;>
    simp only [resolve_ai_item, key_candidates_for, h1, h2, h3,
      Bool.false_eq_true, if_true, if_false, and_self, and_false,
      false_and, true_and, and_true, List.append_nil, List.nil_append,
      List.filter_nil, List.findSome?_nil, Option.none_orElse,
      Option.orElse_none, ite_true, ite_false] <;>
    try rfl
  · cases q3 : assocFind a.por_item (r.numeroCompra.getD "") <;>
      simp [q3, List.filter_cons, List.findSome?_cons, truthy_getD_ne _ h2]
  · cases q2 : assocFind a.por_item
        ((r.numeroCompra.getD "") ++ "/" ++ pyStrOfOptInt r.anoCompra) <;>
      cases q3 : assocFind a.por_item (r.numeroCompra.getD "") <;>
      simp [q2, q3, List.filter_cons, List.findSome?_cons,
        truthy_getD_ne _ h2, compound_ne]
  · cases q1 : assocFind a.por_item (r.numeroControlePNCP.getD "") <;>
      simp [q1, List.filter_cons, List.findSome?_cons, truthy_getD_ne _ h1]
  · cases q1 : assocFind a.por_item (r.numeroControlePNCP.getD "") <;>
      simp [q1, List.filter_cons, List.findSome?_cons, truthy_getD_ne _ h1]
  · cases q1 : assocFind a.por_item (r.numeroControlePNCP.getD "") <;>
      cases q3 : assocFind a.por_item (r.numeroCompra.getD "") <;>
      simp [q1, q3, List.filter_cons, List.findSome?_cons,
        truthy_getD_ne _ h1, truthy_getD_ne _ h2]
  · cases q1 : assocFind a.por_item (r.numeroControlePNCP.getD "") <;>
      cases q2 : assocFind a.por_item
        ((r.numeroCompra.getD "") ++ "/" ++ pyStrOfOptInt r.anoCompra) <;>
      cases q3 : assocFind a.por_item (r.numeroCompra.getD "") <;>
      simp [q1, q2, q3, List.filter_cons, List.findSome?_cons,
        truthy_getD_ne _ h1, truthy_getD_ne _ h2, compound_ne]

/-! ### Claim C8: lemmas about digits, grouping and splitting -/

/-- A digit character is a digit. -/
theorem digit_isDigit (m : Nat) (h : m < 10) : (digitChar m).isDigit = true := by
  interval_cases m <;> decide

/-- Numeric value of a digit character. -/
theorem digitChar_val (m : Nat) (h : m < 10) : (digitChar m).toNat - 48 = m := by
  interval_cases m <;> decide

/-- With adequate fuel, renderings consist of digits. -/
theorem natToDigitsGo_all_digits (fuel : Nat) :
    ∀ n ≤ fuel, ∀ c ∈ natToDigitsGo fuel n, c.isDigit = true := by
  induction fuel with
  | zero =>
    intro n hn c hc
    rw [Nat.le_zero.mp hn] at hc
    rw [natToDigitsGo, List.mem_singleton] at hc
    subst hc
    exact digit_isDigit 0 (by omega)
  | succ fuel ih =>
    intro n hn c hc
    rw [natToDigitsGo] at hc
    split at hc
    · rw [List.mem_singleton] at hc
      subst hc
      exact digit_isDigit n (by omega)
    · rw [List.mem_append] at hc
      rcases hc with hc | hc
      · exact ih (n / 10) (by omega) c hc
      · rw [List.mem_singleton] at hc
        subst hc
        exact digit_isDigit _ (Nat.mod_lt _ (by omega))

/-- Decimal renderings consist of digits. -/
theorem natToDigits_all_digits (n : Nat) :
    ∀ c ∈ natToDigits n, c.isDigit = true :=
  natToDigitsGo_all_digits n n (le_refl n)

/-- Appending one digit multiplies the value by ten. -/
theorem natVal_append_digit (l : List Char) (c : Char) :
    natVal (l ++ [c]) = natVal l * 10 + (c.toNat - 48) := by
  simp [natVal, List.foldl_append]

/-- With adequate fuel, parsing a rendering returns the number. -/
theorem natVal_natToDigitsGo (fuel : Nat) :
    ∀ n ≤ fuel, natVal (natToDigitsGo fuel n) = n := by
  induction fuel with
  | zero =>
    intro n hn
    rw [Nat.le_zero.mp hn, natToDigitsGo]
    simp [natVal, digitChar_val 0 (by omega)]
  | succ fuel ih =>
    intro n hn
    rw [natToDigitsGo]
    split
    · next h =>
      show natVal [digitChar n] = n
      simp [natVal, digitChar_val n h]
    · next h =>
      rw [natVal_append_digit, ih (n / 10) (by omega),
        digitChar_val _ (Nat.mod_lt _ (by omega))]
      omega

/-- Parsing a decimal rendering returns the number. -/
theorem natVal_natToDigits (n : Nat) : natVal (natToDigits n) = n :=
  natVal_natToDigitsGo n n (le_refl n)

/-- Dropping the dots of a grouped (reversed) digit string recovers the
string. -/
theorem group3rev_filter (l : List Char) :
    (group3rev l).filter (fun c => decide (c ≠ '.')) =
      l.filter (fun c => decide (c ≠ '.')) := by
  induction l using group3rev.induct with
  | case1 a b c d rest ih =>
    simp only [group3rev, List.filter_cons, ih]
    norm_num
  | case2 l h =>
    rcases l with _ | ⟨a, _ | ⟨b, _ | ⟨c, _ | ⟨d, rest⟩⟩⟩⟩
    · rfl
    · rfl
    · rfl
    · rfl
    · exact ((h a b c d rest rfl)).elim

/-- Grouping only adds separator dots. -/
theorem group3rev_mem (l : List Char) (c : Char) (h : c ∈ group3rev l) :
    c ∈ l ∨ c = '.' := by
  induction l using group3rev.induct with
  | case1 a b c2 d rest ih =>
    rw [group3rev] at h
    simp only [List.mem_cons] at h ⊢
    rcases h with h | h | h | h | h
    · exact Or.inl (Or.inl h)
    · exact Or.inl (Or.inr (Or.inl h))
    · exact Or.inl (Or.inr (Or.inr (Or.inl h)))
    · exact Or.inr h
    · rcases ih h with h2 | h2
      · simp only [List.mem_cons] at h2
        rcases h2 with h2 | h2
        · exact Or.inl (Or.inr (Or.inr (Or.inr (by simp [h2]))))
        · exact Or.inl (Or.inr (Or.inr (Or.inr (by simp [h2]))))
      · exact Or.inr h2
  | case2 l h2 =>
    rcases l with _ | ⟨a, _ | ⟨b, _ | ⟨c2, _ | ⟨d, rest⟩⟩⟩⟩
    · exact Or.inl h
    · exact Or.inl h
    · exact Or.inl h
    · exact Or.inl h
    · exact ((h2 a b c2 d rest rfl)).elim

/-- Dropping the dots of a grouped digit string recovers the string. -/
theorem groupThousands_filter (l : List Char) :
    (groupThousands l).filter (fun c => decide (c ≠ '.')) =
      l.filter (fun c => decide (c ≠ '.')) := by
  rw [groupThousands, List.filter_reverse, group3rev_filter,
    List.filter_reverse, List.reverse_reverse]

/-- Thousands grouping only adds separator dots. -/
theorem groupThousands_mem (l : List Char) (c : Char)
    (h : c ∈ groupThousands l) : c ∈ l ∨ c = '.' := by
  rw [groupThousands, List.mem_reverse] at h
  rcases group3rev_mem _ _ h with h2 | h2
  · exact Or.inl (List.mem_reverse.mp h2)
  · exact Or.inr h2

/-- Splitting a dot-free list is trivial. -/
theorem splitDots_no_dot (l : List Char) (h : ∀ c ∈ l, c ≠ '.') :
    splitDots l = [l] := by
  induction l with
  | nil => rfl
  | cons a rest ih =>
    rw [splitDots, if_neg (h a (by simp))]
    rw [ih (fun c hc => h c (by simp [hc]))]

/-- Splitting at an explicit dot after a dot-free prefix. -/
theorem splitDots_append (d rest : List Char) (h : ∀ c ∈ d, c ≠ '.') :
    splitDots (d ++ '.' :: rest) = d :: splitDots rest := by
  induction d with
  | nil =>
    rw [List.nil_append, splitDots, if_pos rfl]
  | cons a dd ih =>
    rw [List.cons_append, splitDots, if_neg (h a (by simp))]
    rw [ih (fun c hc => h c (by simp [hc]))]

/-- `Rat.floor` agrees with the `Int.floor` of the `FloorRing`
instance. -/
theorem ratFloor_eq_intFloor (q : Rat) : q.floor = ⌊q⌋ := rfl

/-- The cent count the formatter computes for an exact nonnegative cent
value. -/
theorem cents_of_nat (c : Nat) :
    (((c : Rat) / 100) * 100 + 1 / 2).floor = (c : Int) := by
  rw [ratFloor_eq_intFloor]
  have h1 : ((c : Rat) / 100) * 100 + 1 / 2 = ((c : Int) : Rat) + 1 / 2 := by
    push_cast
    field_simp
  rw [h1, Int.floor_int_add]
  have h2 : (⌊(1 / 2 : Rat)⌋ : Int) = 0 := by
    rw [Int.floor_eq_iff]
    norm_num
  rw [h2, add_zero]

/-- The formatted rendering of an exact nonnegative cent value. -/
theorem fmt_money_nat (c : Nat) :
    fmt_money_br (some ((c : Rat) / 100)) =
      "R$ " ++ "" ++ String.mk (groupThousands (natToDigits (c / 100)))
        ++ "," ++ String.mk (twoDigits (c % 100)) := by
  rw [fmt_money_br]
  rw [cents_of_nat]
  have hneg : ¬ ((c : Int) < 0) := by omega
  rw [if_neg hneg]
  rw [Int.natAbs_ofNat]



/-- The fraction digits are digits. -/
theorem twoDigits_all_digits (m : Nat) :
    ∀ ch ∈ twoDigits m, ch.isDigit = true := by
  intro ch hch
  rw [twoDigits] at hch
  simp only [List.mem_cons, List.mem_singleton, List.not_mem_nil,
    or_false] at hch
  rcases hch with h | h <;> subst h
  · exact digit_isDigit _ (Nat.mod_lt _ (by omega))
  · exact digit_isDigit _ (Nat.mod_lt _ (by omega))

/-- Value of the two fraction digits. -/
theorem natVal_twoDigits (m : Nat) (h : m < 100) :
    natVal (twoDigits m) = m := by
  rw [twoDigits]
  show natVal [digitChar (m / 10 % 10), digitChar (m % 10)] = m
  have h1 : m / 10 % 10 < 10 := Nat.mod_lt _ (by omega)
  have h2 : m % 10 < 10 := Nat.mod_lt _ (by omega)
  simp only [natVal, List.foldl_cons, List.foldl_nil]
  rw [Nat.zero_mul, Nat.zero_add]
  rw [show (digitChar (m / 10 % 10)).toNat - 48 = m / 10 % 10 from
    digitChar_val _ h1]
  rw [show (digitChar (m % 10)).toNat - 48 = m % 10 from digitChar_val _ h2]
  omega

/-- Digits survive the keep-digits-and-separators filter. -/
theorem digit_p1 (ch : Char) (h : ch.isDigit = true) :
    (ch.isDigit || decide (ch = ',') || decide (ch = '.')) = true := by
  simp [h]

/-- A digit is not a dot. -/
theorem digit_ne_dot (ch : Char) (h : ch.isDigit = true) : ch ≠ '.' := by
  intro he
  rw [he] at h
  exact absurd h (by decide)

/-- A digit is not a comma. -/
theorem digit_ne_comma (ch : Char) (h : ch.isDigit = true) : ch ≠ ',' := by
  intro he
  rw [he] at h
  exact absurd h (by decide)

/-- C8 amended: for every non-negative value with exact cent precision,
parsing the formatted rendering returns the value:
`money_br_to_number (fmt_money_br x) = x` for `x = c / 100`, `c : Nat`.
(The counterexample shows the round trip fails for negative values: the
parser strips the sign.) -/
theorem C8_theorem (c : Nat) :
    money_br_to_number (some (fmt_money_br (some ((c : Rat) / 100)))) =
      some ((c : Rat) / 100) := by
  rw [fmt_money_nat]
  set D := natToDigits (c / 100) with hDdef
  set F := twoDigits (c % 100) with hFdef
  have hD : ∀ ch ∈ D, ch.isDigit = true := natToDigits_all_digits _
  have hF : ∀ ch ∈ F, ch.isDigit = true := twoDigits_all_digits _
  have hdata : ("R$ " ++ "" ++ String.mk (groupThousands D) ++ ","
      ++ String.mk F).data =
      ['R', '$', ' '] ++ (groupThousands D ++ ([','] ++ F)) := by
    simp [String.data_append]
  rw [money_br_to_number]
  rw [if_neg (by
    intro he
    have := congrArg String.data he
    rw [hdata] at this
    simp at this)]
  rw [hdata]
  have hfil1 : (['R', '$', ' '] ++ (groupThousands D ++ ([','] ++ F))).filter
      (fun ch => ch.isDigit || ch = ',' || ch = '.') =
      groupThousands D ++ ([','] ++ F) := by
    rw [List.filter_append]
    rw [show (['R', '$', ' '].filter
      (fun ch => ch.isDigit || decide (ch = ',') || decide (ch = '.'))) =
      [] from rfl]
    rw [List.nil_append, List.filter_append, List.filter_append]
    rw [List.filter_eq_self.mpr, List.filter_eq_self.mpr,
      List.filter_eq_self.mpr]
    · intro ch hch
      exact digit_p1 ch (hF ch hch)
    · intro ch hch
      rw [List.mem_singleton] at hch
      subst hch
      decide
    · intro ch hch
      rcases groupThousands_mem D ch hch with h2 | h2
      · exact digit_p1 ch (hD ch h2)
      · subst h2
        decide
  rw [hfil1]
  have hfil2 : (groupThousands D ++ ([','] ++ F)).filter
      (fun ch => ch ≠ '.') = D ++ ([','] ++ F) := by
    rw [List.filter_append, groupThousands_filter,
      List.filter_eq_self.mpr (fun ch hch => by
        simp [digit_ne_dot ch (hD ch hch)])]
    rw [List.filter_append]
    rw [List.filter_eq_self.mpr (fun ch hch => by
      rw [List.mem_singleton] at hch
      subst hch
      decide)]
    rw [List.filter_eq_self.mpr (fun ch hch => by
      simp [digit_ne_dot ch (hF ch hch)])]
  rw [hfil2]
  have hmap : (D ++ ([','] ++ F)).map
      (fun ch => if ch = ',' then '.' else ch) = D ++ ('.' :: F) := by
    rw [List.map_append, List.map_append]
    rw [List.map_congr_left (fun ch hch => by
      rw [if_neg (digit_ne_comma ch (hD ch hch))]), List.map_id']
    rw [show ([','].map (fun ch => if ch = ',' then '.' else ch)) = ['.']
      from rfl]
    rw [List.map_congr_left (fun ch hch => by
      rw [if_neg (digit_ne_comma ch (hF ch hch))]), List.map_id']
    rfl
  rw [hmap]
  rw [pyFloat]
  rw [splitDots_append D F (fun ch hch => digit_ne_dot ch (hD ch hch))]
  rw [splitDots_no_dot F (fun ch hch => digit_ne_dot ch (hF ch hch))]
  dsimp only
  rw [if_pos]
  · rw [natVal_natToDigits, natVal_twoDigits _ (Nat.mod_lt _ (by omega))]
    rw [show F.length = 2 from rfl]
    have hmod : (c : Rat) = 100 * ((c / 100 : Nat) : Rat)
        + ((c % 100 : Nat) : Rat) := by
      exact_mod_cast (Nat.div_add_mod c 100).symm
    rw [hmod]
    ring_nf
  · refine ⟨?_, ?_, ?_⟩
    · simp [hFdef, twoDigits]
    · exact List.all_eq_true.mpr hD
    · exact List.all_eq_true.mpr hF

/-- Unfolding of the formatter for a given cent count. -/
theorem fmt_money_eq (x : Rat) (n : Int)
    (h : (x * 100 + 1 / 2).floor = n) :
    fmt_money_br (some x) =
      "R$ " ++ (if n < 0 then "-" else "")
        ++ String.mk (groupThousands (natToDigits (n.natAbs / 100)))
        ++ "," ++ String.mk (twoDigits (n.natAbs % 100)) := by
  rw [fmt_money_br.eq_def]
  dsimp only
  rw [h]

/-- C8 counterexample: the claim quantifies over every non-null decimal of
standard precision, but a negative value does not round-trip — the
formatter emits a sign that the parser's character filter strips, so
`-1` comes back as `1`. -/
theorem C8_counterexample :
    fmt_money_br (some (-1)) = "R$ -1,00"
    ∧ money_br_to_number (some (fmt_money_br (some (-1)))) = some 1
    ∧ money_br_to_number (some (fmt_money_br (some (-1)))) ≠ some (-1) := by
  have hc : ((-1 : Rat) * 100 + 1 / 2).floor = -100 := by
    rw [ratFloor_eq_intFloor, Int.floor_eq_iff]
    norm_num
  have hfmt : fmt_money_br (some (-1)) = "R$ -1,00" := by
    rw [fmt_money_eq (-1) (-100) hc]
    rfl
  have hparse : money_br_to_number (some "R$ -1,00") =
      pyFloat ['1', '.', '0', '0'] := rfl
  have hval : pyFloat ['1', '.', '0', '0'] = some 1 := by
    rw [pyFloat]
    rw [show splitDots ['1', '.', '0', '0'] = [['1'], ['0', '0']] from rfl]
    dsimp only
    rw [if_pos (by decide)]
    rw [show natVal ['1'] = 1 from rfl, show natVal ['0', '0'] = 0 from rfl]
    norm_num
  have h1 : money_br_to_number (some (fmt_money_br (some (-1)))) = some 1 := by
    rw [hfmt, hparse, hval]
  refine ⟨hfmt, h1, ?_⟩
  rw [h1]
  simp only [ne_eq, Option.some.injEq]
  norm_num

/-! ### Document discovery (`find_pdf_links`) -/

/-- Python `s.strip()`. -/
def pyStrip (s : String) : String :=
  String.mk (((s.data.dropWhile (·.isWhitespace)).reverse.dropWhile
    (·.isWhitespace)).reverse)

/-- The keyword vocabulary of the `PDF_CANDIDATE_TEXT` regex
(`refer[eê]ncia` contributes both spellings; `re.I` is modelled by
lowering the text first). -/
def pdfCandidateKeywords : List String :=
  ["edital", "anexo", "itens", "item", "termo", "referencia", "referência",
   "arquivo", "download"]

/-- Does the visible anchor text match `PDF_CANDIDATE_TEXT`? -/
def pdf_candidate_text (t : String) : Bool :=
  pdfCandidateKeywords.any (fun w => pyContains (pyLowerS t) w)

/-- One anchor element of the parsed page: `href` attribute and visible
text. -/
structure Anchor where
  href : String
  text : String
deriving DecidableEq, Repr

/-- The parsed page as `find_pdf_links` consumes it: anchors with an
`href`, `[data-href]` attribute values, and `window.open(...)` argument
strings found in the raw markup. -/
structure PageDoc where
  anchors : List Anchor := []
  dataHrefs : List String := []
  windowOpens : List String := []
deriving DecidableEq, Repr

/-- Candidate hrefs in source order: keyword/extension-matching anchors,
then `data-href` values, then `window.open` targets. -/
def pdf_link_candidates (doc : PageDoc) : List String :=
  (doc.anchors.filterMap (fun a =>
    let href := pyStrip a.href
    if (".pdf".data.isSuffixOf (pyLowerS href).data
        || pdf_candidate_text (pyStrip a.text))
    then some href else none))
  ++ doc.dataHrefs ++ doc.windowOpens

/-- Split an absolute URL into its scheme letters and what follows
`"://"`; `none` when the URL has no scheme. -/
def takeAlphaSplit (l : List Char) : Option (List Char × List Char) :=
  let p := takeAlpha l
  if p.1 ≠ [] ∧ p.2.take 3 = [':', '/', '/'] then some (p.1, p.2.drop 3)
  else none

/-- The directory part of a URL path, up to and including the last
slash (root when the path is empty). -/
def dirOf (path : List Char) : List Char :=
  match path.reverse.dropWhile (fun c => c ≠ '/') with
  | [] => ['/']
  | l => l.reverse

/-- The `urljoin` model: minimal embedding of `urllib.parse.urljoin`
covering the cases exercised here — an already-absolute href, a
protocol-relative href, a host-relative href, and a path-relative href
resolved against the base's directory.  (Dot segments, queries and
fragments are not modelled; a base without a scheme resolves to the
href itself.) -/
def urljoinM (base href : String) : String :=
  if href = "" then base
  else if hasScheme href then href
  else
    match takeAlphaSplit base.data with
    | none => href
    | some schRest =>
      let host := schRest.2.takeWhile (fun c => c ≠ '/')
      let path := schRest.2.dropWhile (fun c => c ≠ '/')
      if href.data.take 2 = ['/', '/'] then
        String.mk (schRest.1 ++ [':']) ++ href
      else if href.data.take 1 = ['/'] then
        String.mk (schRest.1 ++ [':', '/', '/'] ++ host) ++ href
      else
        String.mk (schRest.1 ++ [':', '/', '/'] ++ host ++ dirOf path)
          ++ href

/-- The `abs_url` helper of the source (`urljoin` never raises on
strings, so the `except` branch is unreachable). -/
def abs_url (href base : String) : Option String :=
  some (urljoinM base href)

/-- First-occurrence deduplication that skips anything in `seen` (the
`seen`/`uniq` fold of `find_pdf_links`, in recursive form). -/
def dedupFrom (seen : List String) : List String → List String
  | [] => []
  | x :: xs =>
    if x ∈ seen then dedupFrom seen xs else x :: dedupFrom (x :: seen) xs

/-- First-occurrence deduplication. -/
def dedupFirst (l : List String) : List String :=
  dedupFrom [] l

/-- The annex keyword set of `find_pdf_links`. -/
def annexKeywords : List String :=
  ["anexo", "itens", "item", "termo", "referencia"]

/-- Does a URL match the annex regex (`re.I`)? -/
def annex_match (u : String) : Bool :=
  annexKeywords.any (fun w => pyContains (pyLowerS u) w)

/-- One step of the absolutize-and-dedup fold of `find_pdf_links` over
the state `(seen, uniq)`. -/
def dedupStep (base : String) (st : List String × List String)
    (h : String) : List String × List String :=
  match abs_url h base with
  | some u => if u ≠ "" ∧ u ∉ st.1 then (u :: st.1, st.2 ++ [u]) else st
  | none => st

/-- Source `find_pdf_links` over a parsed page: collect candidates,
absolutize against the page URL, deduplicate, then choose the primary
(`edital`) and annex URLs. -/
def find_pdf_links (page_url : String) (doc : PageDoc) :
    Option String × Option String :=
  let uniq := ((pdf_link_candidates doc).foldl (dedupStep page_url)
    ([], [])).2
  let edital := pyOrStr
    (uniq.find? (fun u => pyContains (pyLowerS u) "edital")) uniq.head?
  let anexo := uniq.find? (fun u => annex_match u ∧ some u ≠ edital)
  (edital, anexo)

/-! ### Claim C9 -/
theorem fold_spec (base : String) (l : List String) :
    ∀ seen acc, (l.foldl (dedupStep base) (seen, acc)).2 =
      acc ++ dedupFrom seen ((l.map (fun h => urljoinM base h)).filter
        (fun u => u ≠ "")) := by
  induction l with
  | nil => intro seen acc; simp [dedupFrom]
  | cons h t ih =>
    intro seen acc
    rw [List.foldl_cons, List.map_cons, List.filter_cons]
    rw [dedupStep, abs_url]
    dsimp only
    by_cases he : urljoinM base h = ""
    · rw [if_neg (fun hcon => hcon.1 he), if_neg (by simp [he])]
      exact ih seen acc
    · by_cases hs : urljoinM base h ∈ seen
      · rw [if_neg (fun hcon => hcon.2 hs), if_pos (by simp [he])]
        rw [ih seen acc, dedupFrom, if_pos hs]
      · rw [if_pos ⟨he, hs⟩, if_pos (by simp [he])]
        rw [ih (urljoinM base h :: seen) (acc ++ [urljoinM base h]),
          dedupFrom, if_neg hs]
        simp

/-- Deduplication preserves first-seen order: the result is a sublist. -/
theorem dedupFrom_sublist (seen : List String) (l : List String) :
    (dedupFrom seen l).Sublist l := by
  induction l generalizing seen with
  | nil => exact List.Sublist.refl []
  | cons x xs ih =>
    rw [dedupFrom]
    split
    · exact List.Sublist.cons x (ih seen)
    · exact List.Sublist.cons₂ x (ih (x :: seen))

/-- Deduplication never returns an already-seen element. -/
theorem dedupFrom_not_mem_seen (seen : List String) (l : List String)
    (y : String) (hy : y ∈ dedupFrom seen l) : y ∉ seen := by
  induction l generalizing seen with
  | nil => simp [dedupFrom] at hy
  | cons x xs ih =>
    rw [dedupFrom] at hy
    split at hy
    · exact ih seen hy
    · rw [List.mem_cons] at hy
      rcases hy with hy | hy
      · next hx => rw [hy]; exact hx
      · intro hmem
        exact ih (x :: seen) hy (List.mem_cons_of_mem x hmem)

/-- Deduplication returns a duplicate-free list. -/
theorem dedupFrom_nodup (seen : List String) (l : List String) :
    (dedupFrom seen l).Nodup := by
  induction l generalizing seen with
  | nil => exact List.nodup_nil
  | cons x xs ih =>
    rw [dedupFrom]
    split
    · exact ih seen
    · rw [List.nodup_cons]
      refine ⟨fun hmem => ?_, ih (x :: seen)⟩
      exact dedupFrom_not_mem_seen _ _ _ hmem (List.mem_cons_self x seen)

/-- The alphabetic prefix consists of alphabetic characters. -/
theorem takeAlpha_fst_alpha (l : List Char) :
    ∀ c ∈ (takeAlpha l).1, c.isAlpha = true := by
  induction l with
  | nil => simp [takeAlpha]
  | cons x xs ih =>
    rw [takeAlpha]
    split
    · next hx =>
      intro c hc
      rw [List.mem_cons] at hc
      rcases hc with hc | hc
      · rw [hc]; exact hx
      · exact ih c hc
    · simp

/-- The alphabetic prefix of an alphabetic run followed by a
non-alphabetic character. -/
theorem takeAlpha_append (a : List Char) (c : Char) (t : List Char)
    (ha : ∀ x ∈ a, x.isAlpha = true) (hc : c.isAlpha = false) :
    takeAlpha (a ++ c :: t) = (a, c :: t) := by
  induction a with
  | nil =>
    rw [List.nil_append, takeAlpha, if_neg (by simp [hc])]
  | cons x xs ih =>
    rw [List.cons_append, takeAlpha, if_pos (ha x (by simp))]
    rw [ih (fun y hy => ha y (by simp [hy]))]

/-- A string whose characters are scheme letters, a colon and two
slashes is an absolute URL. -/
theorem hasScheme_of_data (s : String) (sch r : List Char)
    (hd : s.data = sch ++ ':' :: r) (hne : sch ≠ [])
    (ha : ∀ x ∈ sch, x.isAlpha = true) (hr : r.take 2 = ['/', '/']) :
    hasScheme s = true := by
  rw [hasScheme, hd, takeAlpha_append sch ':' r ha (by decide)]
  simp only [Bool.and_eq_true, Bool.not_eq_true']
  constructor
  · rw [List.isEmpty_eq_false_iff_exists_mem]
    rcases sch with _ | ⟨x, xs⟩
    · exact absurd rfl hne
    · exact ⟨x, by simp⟩
  · rw [List.take_succ_cons, hr]
    decide

/-- An absolute URL splits into scheme and remainder. -/
theorem hasScheme_takeAlphaSplit (s : String) (hb : hasScheme s = true) :
    takeAlphaSplit s.data =
      some ((takeAlpha s.data).1, (takeAlpha s.data).2.drop 3)
    ∧ (takeAlpha s.data).1 ≠ [] := by
  rw [hasScheme] at hb
  simp only [Bool.and_eq_true, Bool.not_eq_true', decide_eq_true_eq] at hb
  obtain ⟨h1, h2⟩ := hb
  have hne : (takeAlpha s.data).1 ≠ [] := by
    intro h
    rw [h] at h1
    simp at h1
  exact ⟨by rw [takeAlphaSplit, if_pos ⟨hne, h2⟩], hne⟩

/-- Resolution against an absolute base always yields an absolute URL. -/
theorem urljoinM_abs (base href : String) (hb : hasScheme base = true) :
    hasScheme (urljoinM base href) = true := by
  rw [urljoinM]
  by_cases h0 : href = ""
  · rw [if_pos h0]
    exact hb
  · rw [if_neg h0]
    by_cases h1 : hasScheme href
    · rw [if_pos h1]
      exact h1
    · rw [if_neg h1]
      obtain ⟨hsplit, hne⟩ := hasScheme_takeAlphaSplit base hb
      rw [hsplit]
      dsimp only
      have halpha := takeAlpha_fst_alpha base.data
      by_cases h2 : href.data.take 2 = ['/', '/']
      · rw [if_pos h2]
        refine hasScheme_of_data _ (takeAlpha base.data).1 href.data ?_ hne
          halpha h2
        rw [String.data_append]
        simp
      · rw [if_neg h2]
        by_cases h3 : href.data.take 1 = ['/']
        · rw [if_pos h3]
          refine hasScheme_of_data _ (takeAlpha base.data).1
            ('/' :: '/' :: ((((takeAlpha base.data).2.drop 3).takeWhile
              (fun c => c ≠ '/')) ++ href.data)) ?_ hne halpha rfl
          rw [String.data_append]
          simp
        · rw [if_neg h3]
          refine hasScheme_of_data _ (takeAlpha base.data).1
            ('/' :: '/' :: ((((takeAlpha base.data).2.drop 3).takeWhile
              (fun c => c ≠ '/')) ++ (dirOf (((takeAlpha base.data).2.drop
                3).dropWhile (fun c => c ≠ '/')) ++ href.data))) ?_ hne
            halpha rfl
          rw [String.data_append]
          simp

/-- C9: `find_pdf_links` works on the candidate list resolved to
absolute URLs against the page URL and deduplicated preserving
first-seen order (a duplicate-free sublist of the resolved candidates);
the primary is the first candidate whose URL matches `"edital"` falling
back to the first candidate overall, the annex is the first candidate
matching the annex keyword set and different from the chosen primary,
either may be null (the `Option` results), and when the page URL is
absolute every deduplicated candidate is absolute. -/
theorem C9_theorem (page_url : String) (doc : PageDoc) :
    (find_pdf_links page_url doc).1 =
      pyOrStr ((dedupFirst (((pdf_link_candidates doc).map
          (fun h => urljoinM page_url h)).filter (fun u => u ≠ ""))).find?
          (fun u => pyContains (pyLowerS u) "edital"))
        (dedupFirst (((pdf_link_candidates doc).map
          (fun h => urljoinM page_url h)).filter (fun u => u ≠ ""))).head?
    ∧ (find_pdf_links page_url doc).2 =
        (dedupFirst (((pdf_link_candidates doc).map
          (fun h => urljoinM page_url h)).filter (fun u => u ≠ ""))).find?
          (fun u => annex_match u ∧ some u ≠ (find_pdf_links page_url doc).1)
    ∧ (dedupFirst (((pdf_link_candidates doc).map
        (fun h => urljoinM page_url h)).filter (fun u => u ≠ ""))).Nodup
    ∧ (dedupFirst (((pdf_link_candidates doc).map
        (fun h => urljoinM page_url h)).filter (fun u => u ≠ ""))).Sublist
        (((pdf_link_candidates doc).map
          (fun h => urljoinM page_url h)).filter (fun u => u ≠ ""))
    ∧ (hasScheme page_url = true →
        ∀ u ∈ dedupFirst (((pdf_link_candidates doc).map
          (fun h => urljoinM page_url h)).filter (fun u => u ≠ "")),
          hasScheme u = true) := by
  have huniq : ((pdf_link_candidates doc).foldl (dedupStep page_url)
      ([], [])).2 = dedupFirst (((pdf_link_candidates doc).map
        (fun h => urljoinM page_url h)).filter (fun u => u ≠ "")) := by
    rw [fold_spec page_url (pdf_link_candidates doc) [] [],
      List.nil_append, dedupFirst]
  refine ⟨?_, ?_, dedupFrom_nodup _ _, dedupFrom_sublist _ _, ?_⟩
  · rw [find_pdf_links]
    dsimp only
    rw [huniq]
  · rw [find_pdf_links]
    dsimp only
    rw [huniq]
  · intro hb u hu
    have hmem : u ∈ ((pdf_link_candidates doc).map
        (fun h => urljoinM page_url h)).filter (fun u => u ≠ "") :=
      (dedupFrom_sublist _ _).mem hu
    rw [List.mem_filter] at hmem
    obtain ⟨h, _, rfl⟩ := List.mem_map.mp hmem.1
    exact urljoinM_abs page_url h hb

/-- Sample page for the C9 witness. -/
def c9doc : PageDoc :=
  { anchors := [{ href := "  doc.PDF ", text := "baixar" },
                { href := "e1", text := "Edital de abertura" },
                { href := "skip", text := "nada" },
                { href := "anexo1", text := "Anexo I" },
                { href := "e1", text := "EDITAL" }]
    dataHrefs := ["d1"]
    windowOpens := ["w1"] }

/-- Witness for C9 at a concrete page: the duplicate anchor collapses,
the first candidate is chosen as primary (no URL contains `"edital"`),
the annex keyword picks the annex link, and resolved URLs are
absolute. -/
theorem C9_witness :
    (find_pdf_links "https://site/p" c9doc).1 = some "https://site/doc.PDF"
    ∧ (find_pdf_links "https://site/p" c9doc).2 = some "https://site/anexo1"
    ∧ hasScheme "https://site/anexo1" = true := by
  have h := C9_theorem "https://site/p" c9doc
  have h1 : (find_pdf_links "https://site/p" c9doc).1 =
      some "https://site/doc.PDF" := by
    rw [h.1]
    decide
  have h2 : (find_pdf_links "https://site/p" c9doc).2 =
      some "https://site/anexo1" := by
    rw [h.2.1, h1]
    decide
  exact ⟨h1, h2, h.2.2.2.2 (by decide) "https://site/anexo1" (by decide)⟩

/-! ### Analysis reconciler default-filling (`ensure_ai_defaults`) -/

/-- Python truthiness of a JSON string field (absent, null and `""` are
falsy). -/
def truthyJStr (v : Option (Option String)) : Bool :=
  match v with
  | some (some s) => s ≠ ""
  | _ => false

/-- Python truthiness of a JSON list field (absent, null and `[]` are
falsy). -/
def truthyJList (v : Option (Option (List String))) : Bool :=
  match v with
  | some (some l) => l ≠ []
  | _ => false

/-- Source `_human_val_txt`. -/
def human_val_txt (v : Option Rat) : String :=
  match v with
  | some x => fmt_money_br (some x)
  | none => "—"

/-- The positive-points heuristic of `ensure_ai_defaults`. -/
def default_pontos (r : Resultado) : List String :=
  let obj := pyLowerS (r.objetoCompra.getD "")
  let pos :=
    (if ["merenda", "alimento", "escola"].any (fun x => pyContains obj x)
      then ["Demanda recorrente (rede escolar)",
            "Entrega fracionada facilita logística"] else [])
    ++ (if ["ti", "informát", "informat"].any (fun x => pyContains obj x)
      then ["Ampla oferta de marcas e insumos", "Distribuição simplificada"]
      else [])
    ++ (if ["obra", "engenharia", "manutenção predial"].any
          (fun x => pyContains obj x)
      then ["Escopo padronizado no edital", "Cronograma definido"] else [])
  let pos := if pos = [] then
    ["Escopo com boa previsibilidade", "Regras objetivas no edital"]
  else pos
  pos.take 3

/-- The risk heuristic of `ensure_ai_defaults`. -/
def default_riscos (r : Resultado) : List String :=
  let riscos := ["Exigências de habilitação podem restringir competição",
                 "Risco de atraso logístico/entrega"]
  let riscos := if r.valorEstimado.getD 0 > 0 then
    riscos ++ ["Possível glosa por sobrepreço frente ao estimado"]
  else riscos
  riscos.take 3

/-- Default-filling statement `entry.setdefault("titulo", ...)`. -/
def adTitulo (r : Resultado) (e : AiEntry) : AiEntry :=
  if e.titulo = none then
    { e with titulo := some (some (pyOrStrD r.objetoCompra "Licitação")) }
  else e

/-- Default-filling statement `entry.setdefault("valor_estimado_texto", ...)`. -/
def adValor (r : Resultado) (e : AiEntry) : AiEntry :=
  if e.valor_estimado_texto = none then
    { e with valor_estimado_texto := some (some (human_val_txt r.valorEstimado)) }
  else e

/-- Default-filling statement `if not entry.get("pontos_positivos"): ...`. -/
def adPontos (r : Resultado) (e : AiEntry) : AiEntry :=
  if truthyJList e.pontos_positivos = false then
    { e with pontos_positivos := some (some (default_pontos r)) }
  else e

/-- Default-filling statement `if not entry.get("riscos"): ...`. -/
def adRiscos (r : Resultado) (e : AiEntry) : AiEntry :=
  if truthyJList e.riscos = false then
    { e with riscos := some (some (default_riscos r)) }
  else e

/-- Default-filling statement `if not entry.get("recomendacao"): ...`. -/
def adRec (r : Resultado) (e : AiEntry) : AiEntry :=
  if truthyJStr e.recomendacao = false then
    { e with recomendacao := some (some (r.analise.recomendacao.getD "avaliar")) }
  else e

/-- Default-filling statement `if entry.get("score_ai") is None: ...`. -/
def adScore (r : Resultado) (e : AiEntry) : AiEntry :=
  if e.score_ai = none ∨ e.score_ai = some none then
    { e with score_ai := some r.analise.score }
  else e

/-- The per-entry default-filling body of `ensure_ai_defaults`: the six
`setdefault`-style statements of the source, in program order
(`setdefault` fills absent keys, the truthiness-guarded fields also
replace null or empty ones, `score_ai` is filled when absent or null). -/
def applyDefaults (r : Resultado) (e : AiEntry) : AiEntry :=
  adScore r (adRec r (adRiscos r (adPontos r (adValor r (adTitulo r e)))))

/-- The key under which `ensure_ai_defaults` creates a missing entry
(`numeroControlePNCP or f"{numeroCompra}/{anoCompra}"`; `None` when the
notice has no identity at all, in which case the notice is skipped). -/
def mkKey (r : Resultado) : Option String :=
  if truthyStr r.numeroControlePNCP then r.numeroControlePNCP
  else if truthyStr r.numeroCompra then
    some ((r.numeroCompra.getD "") ++ "/" ++ pyStrOfOptInt r.anoCompra)
  else none

/-- Index search over the key column (position of the first key
satisfying the predicate). -/
def findIdxAux (p : String → Bool) : List String → Option Nat
  | [] => none
  | k :: ks => if p k then some 0 else (findIdxAux p ks).map (· + 1)

/-- The key column of the per-item mapping. -/
def keysOf (L : List (String × AiEntry)) : List String :=
  L.map Prod.fst

/-- Position of the entry `resolve_ai_item` selects: the in-place dict
mutation of the source is an update at this index.  It only depends on
the key column. -/
def resolveIdx (L : List (String × AiEntry)) (r : Resultado) : Option Nat :=
  match (key_candidates_for r).findSome?
      (fun k => findIdxAux (fun x => x = k) (keysOf L)) with
  | some i => some i
  | none =>
    if truthyStr r.numeroCompra then
      findIdxAux (fun x => pyContains x (r.numeroCompra.getD ""))
        (keysOf L)
    else none

/-- Python dict assignment `por_item[k] = v`: replace the value in place
when the key exists (dicts keep the original position), append
otherwise. -/
def dictSet (L : List (String × AiEntry)) (k : String) (v : AiEntry) :
    List (String × AiEntry) :=
  match findIdxAux (fun x => x = k) (keysOf L) with
  | some i => L.set i (k, v)
  | none => L ++ [(k, v)]

/-- One iteration of the `ensure_ai_defaults` loop: the guard
`if not entry` fires when resolution fails *or* returns an empty (falsy)
dict; it then builds the creation key and assigns a fresh entry under it
(`por_item[str(key)] = entry`), skipping keyless notices (`continue`);
otherwise the resolved entry is default-filled in place. -/
def ensureStep (L : List (String × AiEntry)) (r : Resultado) :
    List (String × AiEntry) :=
  match resolveIdx L r with
  | some i =>
    match L[i]? with
    | some kv =>
      if kv.2 = ({} : AiEntry) then
        match mkKey r with
        | some k => dictSet L k (applyDefaults r {})
        | none => L
      else L.set i (kv.1, applyDefaults r kv.2)
    | none => L
  | none =>
    match mkKey r with
    | some k => dictSet L k (applyDefaults r {})
    | none => L

/-- Source `ensure_ai_defaults` (`ai = ai or {}` then
`ai.setdefault("por_item", {})`: a falsy feed starts from an empty
mapping). -/
def ensure_ai_defaults (ai : Option AiFeed) (resultados : List Resultado) :
    AiFeed :=
  { por_item := resultados.foldl ensureStep ((ai.map AiFeed.por_item).getD []) }

/-- An entry is filled when the title and value-text keys are present,
the recommendation is a non-null string and the AI score is a non-null
number. -/
def EntryFilled (e : AiEntry) : Prop :=
  e.titulo ≠ none ∧ e.valor_estimado_texto ≠ none
  ∧ (∃ s, e.recomendacao = some (some s))
  ∧ (∃ n, e.score_ai = some (some n))

/-! ### Claim C7: the reconciler's default-filling guarantee -/

theorem adTitulo_titulo (r : Resultado) (e : AiEntry) :
    (adTitulo r e).titulo ≠ none := by
  rw [adTitulo]
  split <;> simp_all

theorem adTitulo_rest (r : Resultado) (e : AiEntry) :
    (adTitulo r e).valor_estimado_texto = e.valor_estimado_texto
    ∧ (adTitulo r e).recomendacao = e.recomendacao
    ∧ (adTitulo r e).score_ai = e.score_ai := by
  rw [adTitulo]
  split <;> exact ⟨rfl, rfl, rfl⟩

theorem adValor_valor (r : Resultado) (e : AiEntry) :
    (adValor r e).valor_estimado_texto ≠ none := by
  rw [adValor]
  split <;> simp_all

theorem adValor_rest (r : Resultado) (e : AiEntry) :
    (adValor r e).titulo = e.titulo
    ∧ (adValor r e).recomendacao = e.recomendacao
    ∧ (adValor r e).score_ai = e.score_ai := by
  rw [adValor]
  split <;> exact ⟨rfl, rfl, rfl⟩

theorem adPontos_rest (r : Resultado) (e : AiEntry) :
    (adPontos r e).titulo = e.titulo
    ∧ (adPontos r e).valor_estimado_texto = e.valor_estimado_texto
    ∧ (adPontos r e).recomendacao = e.recomendacao
    ∧ (adPontos r e).score_ai = e.score_ai := by
  rw [adPontos]
  split <;> exact ⟨rfl, rfl, rfl, rfl⟩

theorem adRiscos_rest (r : Resultado) (e : AiEntry) :
    (adRiscos r e).titulo = e.titulo
    ∧ (adRiscos r e).valor_estimado_texto = e.valor_estimado_texto
    ∧ (adRiscos r e).recomendacao = e.recomendacao
    ∧ (adRiscos r e).score_ai = e.score_ai := by
  rw [adRiscos]
  split <;> exact ⟨rfl, rfl, rfl, rfl⟩

theorem adRec_rec (r : Resultado) (e : AiEntry) :
    ∃ s, (adRec r e).recomendacao = some (some s) := by
  rw [adRec]
  split
  · exact ⟨_, rfl⟩
  · next h =>
    rcases he : e.recomendacao with _ | (_ | s)
    · rw [he] at h; simp [truthyJStr] at h
    · rw [he] at h; simp [truthyJStr] at h
    · exact ⟨s, rfl⟩

theorem adRec_rest (r : Resultado) (e : AiEntry) :
    (adRec r e).titulo = e.titulo
    ∧ (adRec r e).valor_estimado_texto = e.valor_estimado_texto
    ∧ (adRec r e).score_ai = e.score_ai := by
  rw [adRec]
  split <;> exact ⟨rfl, rfl, rfl⟩

theorem adScore_score (r : Resultado) (e : AiEntry)
    (h : r.analise.score ≠ none) :
    ∃ n, (adScore r e).score_ai = some (some n) := by
  obtain ⟨n, hn⟩ := Option.ne_none_iff_exists'.mp h
  rw [adScore]
  split
  · exact ⟨n, by rw [hn]⟩
  · next hne =>
    rcases he : e.score_ai with _ | (_ | m)
    · exact absurd (Or.inl he) hne
    · exact absurd (Or.inr he) hne
    · exact ⟨m, rfl⟩

theorem adScore_keeps (r : Resultado) (e : AiEntry) (n : Int)
    (h : e.score_ai = some (some n)) :
    (adScore r e).score_ai = some (some n) := by
  rw [adScore, if_neg (by simp [h])]
  exact h

theorem adScore_rest (r : Resultado) (e : AiEntry) :
    (adScore r e).titulo = e.titulo
    ∧ (adScore r e).valor_estimado_texto = e.valor_estimado_texto
    ∧ (adScore r e).recomendacao = e.recomendacao := by
  rw [adScore]
  split <;> exact ⟨rfl, rfl, rfl⟩

theorem applyDefaults_filled (r : Resultado) (e : AiEntry)
    (h : r.analise.score ≠ none) : EntryFilled (applyDefaults r e) := by
  rw [applyDefaults, EntryFilled]
  refine ⟨?_, ?_, ?_, ?_⟩
  · rw [(adScore_rest _ _).1, (adRec_rest _ _).1, (adRiscos_rest _ _).1,
      (adPontos_rest _ _).1, (adValor_rest _ _).1]
    exact adTitulo_titulo r e
  · rw [(adScore_rest _ _).2.1, (adRec_rest _ _).2.1,
      (adRiscos_rest _ _).2.1, (adPontos_rest _ _).2.1]
    exact adValor_valor r _
  · rw [(adScore_rest _ _).2.2]
    exact adRec_rec r _
  · exact adScore_score r _ h

theorem applyDefaults_keeps (r : Resultado) (e : AiEntry)
    (h : EntryFilled e) : EntryFilled (applyDefaults r e) := by
  obtain ⟨h1, h2, ⟨s, h3⟩, ⟨n, h4⟩⟩ := h
  rw [applyDefaults, EntryFilled]
  refine ⟨?_, ?_, ?_, ?_⟩
  · rw [(adScore_rest _ _).1, (adRec_rest _ _).1, (adRiscos_rest _ _).1,
      (adPontos_rest _ _).1, (adValor_rest _ _).1]
    exact adTitulo_titulo r e
  · rw [(adScore_rest _ _).2.1, (adRec_rest _ _).2.1,
      (adRiscos_rest _ _).2.1, (adPontos_rest _ _).2.1]
    exact adValor_valor r _
  · rw [(adScore_rest _ _).2.2]
    exact adRec_rec r _
  · refine ⟨n, adScore_keeps r _ n ?_⟩
    rw [(adRec_rest _ _).2.2, (adRiscos_rest _ _).2.2.2,
      (adPontos_rest _ _).2.2.2, (adValor_rest _ _).2.2, (adTitulo_rest _ _).2.2]
    exact h4

theorem findIdxAux_lt (p : String → Bool) (ks : List String) (i : Nat)
    (h : findIdxAux p ks = some i) : i < ks.length := by
  induction ks generalizing i with
  | nil => exact Option.noConfusion h
  | cons k rest ih =>
    rw [findIdxAux] at h
    split at h
    · cases h
      simp
    · rcases hr : findIdxAux p rest with _ | j
      · rw [hr] at h
        simp at h
      · rw [hr] at h
        simp at h
        have := ih j hr
        rw [List.length_cons]
        omega

theorem assocFind_eq_idx (L : List (String × AiEntry)) (key : String) :
    assocFind L key = (findIdxAux (fun x => x = key) (keysOf L)).bind
      (fun i => (L[i]?).map Prod.snd) := by
  induction L with
  | nil => rfl
  | cons kv rest ih =>
    by_cases hk : kv.1 = key
    · simp [assocFind, keysOf, findIdxAux, hk]
    · rcases hr : findIdxAux (fun x => x = key) (keysOf rest) with _ | j
      · simp_all [assocFind, keysOf, findIdxAux, hk, hr]
      · simp_all [assocFind, keysOf, findIdxAux, hk, hr]

theorem fuzzyFind_eq_idx (nc : String) (L : List (String × AiEntry)) :
    fuzzyFind nc L = (findIdxAux (fun x => pyContains x nc)
      (keysOf L)).bind (fun i => (L[i]?).map Prod.snd) := by
  induction L with
  | nil => rfl
  | cons kv rest ih =>
    by_cases hk : pyContains kv.1 nc = true
    · simp [fuzzyFind, keysOf, findIdxAux, hk]
    · rcases hr : findIdxAux (fun x => pyContains x nc) (keysOf rest)
        with _ | j
      · simp_all [fuzzyFind, keysOf, findIdxAux, hk, hr]
      · simp_all [fuzzyFind, keysOf, findIdxAux, hk, hr]

theorem resolve_eq_resolveIdx (L : List (String × AiEntry)) (r : Resultado) :
    resolve_ai_item (some { por_item := L }) r =
      (resolveIdx L r).bind (fun i => (L[i]?).map Prod.snd) := by
  rw [resolve_ai_item, resolveIdx]
  dsimp only
  have hcand : (key_candidates_for r).findSome?
      (fun k => assocFind L k) = ((key_candidates_for r).findSome?
        (fun k => findIdxAux (fun x => x = k) (keysOf L))).bind
        (fun i => (L[i]?).map Prod.snd) := by
    induction key_candidates_for r with
    | nil => rfl
    | cons c cs ih =>
      rw [List.findSome?_cons, List.findSome?_cons, assocFind_eq_idx]
      rcases hc : findIdxAux (fun x => x = c) (keysOf L) with _ | i
      · simpa using ih
      · have hlt : i < L.length := by
          have := findIdxAux_lt _ _ _ hc
          simpa [keysOf] using this
        simp only [Option.some_bind]
        rw [List.getElem?_eq_getElem hlt]
        simp
  rw [hcand]
  rcases hc : (key_candidates_for r).findSome?
      (fun k => findIdxAux (fun x => x = k) (keysOf L)) with _ | i
  · simp only [Option.none_bind]
    split
    · rw [fuzzyFind_eq_idx]
    · rfl
  · simp only [Option.some_bind]
    have hlt : i < L.length := by
      obtain ⟨k2, hk2, hf⟩ := List.exists_of_findSome?_eq_some hc
      have := findIdxAux_lt _ _ _ hf
      simpa [keysOf] using this
    rw [List.getElem?_eq_getElem hlt]
    simp

theorem keysOf_set (L : List (String × AiEntry)) (i : Nat)
    (kv : String × AiEntry) (v : AiEntry) (h : L[i]? = some kv) :
    keysOf (L.set i (kv.1, v)) = keysOf L := by
  induction L generalizing i with
  | nil => simp at h
  | cons a rest ih =>
    cases i with
    | zero =>
      simp only [List.getElem?_cons_zero, Option.some_inj] at h
      rw [List.set_cons_zero, keysOf, keysOf, List.map_cons, List.map_cons,
        h]
    | succ j =>
      simp only [List.getElem?_cons_succ] at h
      rw [List.set_cons_succ, keysOf, keysOf, List.map_cons, List.map_cons]
      have := ih j h
      rw [keysOf, keysOf] at this
      rw [this]

theorem resolveIdx_keys (L L2 : List (String × AiEntry)) (r : Resultado)
    (h : keysOf L = keysOf L2) : resolveIdx L r = resolveIdx L2 r := by
  rw [resolveIdx, resolveIdx, h]

theorem findIdxAux_append (p : String → Bool) (ks : List String)
    (a : String) :
    findIdxAux p (ks ++ [a]) =
      (match findIdxAux p ks with
        | some i => some i
        | none => if p a then some ks.length else none) := by
  induction ks with
  | nil =>
    rw [List.nil_append, findIdxAux, findIdxAux]
    split
    · rfl
    · rfl
  | cons k rest ih =>
    rw [List.cons_append, findIdxAux, findIdxAux, ih]
    split
    · rfl
    · rcases hr : findIdxAux p rest with _ | j
      · dsimp only
        split
        · rfl
        · rfl
      · rfl

theorem resolveIdx_lt (L : List (String × AiEntry)) (r : Resultado)
    (i : Nat) (h : resolveIdx L r = some i) : i < L.length := by
  rw [resolveIdx] at h
  rcases hc : (key_candidates_for r).findSome?
      (fun k => findIdxAux (fun x => x = k) (keysOf L)) with _ | j
  · rw [hc] at h
    dsimp only at h
    split at h
    · have := findIdxAux_lt _ _ _ h
      simpa [keysOf] using this
    · exact Option.noConfusion h
  · rw [hc] at h
    dsimp only at h
    cases h
    obtain ⟨k2, _, hf⟩ := List.exists_of_findSome?_eq_some hc
    have := findIdxAux_lt _ _ _ hf
    simpa [keysOf] using this

theorem findSome?_idx_append (cands ks : List String) (a : String) :
    (cands.findSome? (fun k => findIdxAux (fun x => x = k) (ks ++ [a])) =
      cands.findSome? (fun k => findIdxAux (fun x => x = k) ks))
    ∨ (cands.findSome? (fun k => findIdxAux (fun x => x = k) (ks ++ [a]))
        = some ks.length) := by
  induction cands with
  | nil => left; rfl
  | cons c cs ih =>
    rw [List.findSome?_cons, List.findSome?_cons, findIdxAux_append]
    rcases hc : findIdxAux (fun x => x = c) ks with _ | j
    · dsimp only
      by_cases ha : a = c
      · rw [if_pos (by simp [ha])]
        right
        rfl
      · rw [if_neg (by simp [ha])]
        exact ih
    · left
      rfl

theorem resolveIdx_append (L : List (String × AiEntry))
    (kv : String × AiEntry) (r : Resultado) (i : Nat)
    (h : resolveIdx L r = some i) :
    resolveIdx (L ++ [kv]) r = some i
    ∨ resolveIdx (L ++ [kv]) r = some L.length := by
  have hlen : (keysOf L).length = L.length := by simp [keysOf]
  have hkeys : keysOf (L ++ [kv]) = keysOf L ++ [kv.1] := by simp [keysOf]
  rw [resolveIdx] at h
  rw [resolveIdx, hkeys]
  rcases findSome?_idx_append (key_candidates_for r) (keysOf L) kv.1
    with he | he
  · rw [he]
    rcases hc : (key_candidates_for r).findSome?
        (fun k => findIdxAux (fun x => x = k) (keysOf L)) with _ | j
    · rw [hc] at h
      dsimp only at h ⊢
      split at h
      · next htr =>
        rw [if_pos htr, findIdxAux_append, h]
        left
        rfl
      · exact Option.noConfusion h
    · rw [hc] at h
      dsimp only at h ⊢
      cases h
      left
      rfl
  · rw [he]
    right
    dsimp only
    rw [hlen]

theorem isPrefixOf_self_append (l t : List Char) :
    l.isPrefixOf (l ++ t) = true := by
  induction l with
  | nil => simp [List.isPrefixOf]
  | cons c cs ih =>
    show (c == c && cs.isPrefixOf (cs ++ t)) = true
    rw [ih]
    simp

theorem infixOfB_of_start (n h : List Char) (hp : n.isPrefixOf h = true) :
    infixOfB n h = true := by
  cases h with
  | nil => exact hp
  | cons c rest =>
    rw [infixOfB, hp]
    rfl

theorem pyContains_slash (a b : String) :
    pyContains (a ++ "/" ++ b) a = true := by
  rw [pyContains, String.data_append, String.data_append,
    List.append_assoc]
  exact infixOfB_of_start _ _ (isPrefixOf_self_append _ _)

theorem ne_slash_self (a b : String) : a ++ "/" ++ b ≠ a := by
  intro h
  have hd := congrArg String.data h
  rw [String.data_append, String.data_append, List.append_assoc] at hd
  conv at hd => rhs; rw [← List.append_nil a.data]
  have := List.append_cancel_left hd
  simp [String.data_append] at this

theorem key_candidates_head_ctrl (r : Resultado)
    (h : truthyStr r.numeroControlePNCP = true) :
    ∃ rest, key_candidates_for r =
      (r.numeroControlePNCP.getD "") :: rest := by
  simp only [key_candidates_for]
  rw [if_pos h, List.singleton_append, List.filter_cons_of_pos
    (by simp [truthy_getD_ne _ h])]
  exact ⟨_, rfl⟩

theorem key_candidates_compound (r : Resultado)
    (h1 : ¬ truthyStr r.numeroControlePNCP = true)
    (h2 : truthyStr r.numeroCompra = true)
    (h3 : truthyInt r.anoCompra = true) :
    key_candidates_for r =
      [(r.numeroCompra.getD "") ++ "/" ++ pyStrOfOptInt r.anoCompra,
        r.numeroCompra.getD ""] := by
  simp only [key_candidates_for]
  rw [if_neg h1, if_pos h2, if_pos h3, List.nil_append,
    List.singleton_append, List.filter_cons_of_pos (by simp [compound_ne]),
    List.filter_cons_of_pos (by simp [truthy_getD_ne _ h2]),
    List.filter_nil]

theorem key_candidates_bare (r : Resultado)
    (h1 : ¬ truthyStr r.numeroControlePNCP = true)
    (h2 : truthyStr r.numeroCompra = true)
    (h3 : ¬ truthyInt r.anoCompra = true) :
    key_candidates_for r = [r.numeroCompra.getD ""] := by
  simp only [key_candidates_for]
  rw [if_neg h1, if_pos h2, if_neg h3, List.nil_append, List.nil_append,
    List.filter_cons_of_pos (by simp [truthy_getD_ne _ h2]),
    List.filter_nil]

theorem resolveIdx_establish (L : List (String × AiEntry)) (r : Resultado)
    (k : String) (v : AiEntry) (hres : resolveIdx L r = none)
    (hk : mkKey r = some k) :
    resolveIdx (L ++ [(k, v)]) r = some L.length := by
  have hlen : (keysOf L).length = L.length := by simp [keysOf]
  have hkeys : keysOf (L ++ [(k, v)]) = keysOf L ++ [k] := by simp [keysOf]
  rw [resolveIdx] at hres
  rcases hc : (key_candidates_for r).findSome?
      (fun c => findIdxAux (fun x => x = c) (keysOf L)) with _ | j
  swap
  · rw [hc] at hres
    exact Option.noConfusion hres
  rw [hc] at hres
  dsimp only at hres
  have hcand := List.findSome?_eq_none_iff.mp hc
  rw [resolveIdx, hkeys]
  rw [mkKey] at hk
  by_cases ht1 : truthyStr r.numeroControlePNCP = true
  · rw [if_pos ht1] at hk
    have hkc : r.numeroControlePNCP.getD "" = k := by
      rw [hk]
      rfl
    obtain ⟨rest, hrest⟩ := key_candidates_head_ctrl r ht1
    have hc0 := hcand _ (by rw [hrest]; exact List.mem_cons_self _ _)
    rw [hrest, List.findSome?_cons, findIdxAux_append, hc0]
    rw [hkc]
    rw [if_pos (by simp)]
    dsimp only
    rw [hlen]
  · rw [if_neg ht1] at hk
    by_cases ht2 : truthyStr r.numeroCompra = true
    swap
    · rw [if_neg ht2] at hk
      exact Option.noConfusion hk
    rw [if_pos ht2] at hk
    have hkc : (r.numeroCompra.getD "") ++ "/" ++ pyStrOfOptInt r.anoCompra
        = k := by
      cases hk
      rfl
    rw [if_pos ht2] at hres
    by_cases ht3 : truthyInt r.anoCompra = true
    · have hcands := key_candidates_compound r ht1 ht2 ht3
      have hc0 := hcand _ (by rw [hcands]; exact List.mem_cons_self _ _)
      rw [hcands, List.findSome?_cons, findIdxAux_append, hc0]
      rw [hkc]
      rw [if_pos (by simp)]
      dsimp only
      rw [hlen]
    · have hcands := key_candidates_bare r ht1 ht2 ht3
      have hc0 := hcand _ (by rw [hcands]; exact List.mem_cons_self _ _)
      rw [hcands, List.findSome?_cons, findIdxAux_append, hc0]
      rw [if_neg (by
        rw [← hkc]
        simp only [decide_eq_true_eq]
        exact ne_slash_self _ _)]
      dsimp only
      rw [List.findSome?_nil]
      dsimp only
      rw [if_pos ht2, findIdxAux_append, hres]
      rw [if_pos (by
        rw [← hkc]
        exact pyContains_slash _ _)]
      rw [hlen]

theorem findIdxAux_none_imp (p q : String → Bool) (ks : List String)
    (hpq : ∀ x, q x = true → p x = true)
    (hp : findIdxAux p ks = none) : findIdxAux q ks = none := by
  induction ks with
  | nil => rfl
  | cons a as ih =>
    rw [findIdxAux] at hp ⊢
    by_cases hpa : p a = true
    · rw [if_pos hpa] at hp
      exact Option.noConfusion hp
    · rw [if_neg hpa] at hp
      rw [if_neg (fun hqa => hpa (hpq a hqa))]
      rw [ih (Option.map_eq_none'.mp hp)]
      rfl

theorem mkKey_fresh (L : List (String × AiEntry)) (r : Resultado)
    (k : String) (hres : resolveIdx L r = none) (hk : mkKey r = some k) :
    findIdxAux (fun x => x = k) (keysOf L) = none := by
  rw [resolveIdx] at hres
  rcases hc : (key_candidates_for r).findSome?
      (fun c => findIdxAux (fun x => x = c) (keysOf L)) with _ | j
  swap
  · rw [hc] at hres
    exact Option.noConfusion hres
  rw [hc] at hres
  dsimp only at hres
  have hcand := List.findSome?_eq_none_iff.mp hc
  rw [mkKey] at hk
  by_cases ht1 : truthyStr r.numeroControlePNCP = true
  · rw [if_pos ht1] at hk
    have hkc : r.numeroControlePNCP.getD "" = k := by
      rw [hk]
      rfl
    obtain ⟨rest, hrest⟩ := key_candidates_head_ctrl r ht1
    have hc0 := hcand _ (by rw [hrest]; exact List.mem_cons_self _ _)
    rw [← hkc]
    exact hc0
  · rw [if_neg ht1] at hk
    by_cases ht2 : truthyStr r.numeroCompra = true
    swap
    · rw [if_neg ht2] at hk
      exact Option.noConfusion hk
    rw [if_pos ht2] at hk
    have hkc : (r.numeroCompra.getD "") ++ "/" ++ pyStrOfOptInt r.anoCompra
        = k := by
      cases hk
      rfl
    rw [if_pos ht2] at hres
    refine findIdxAux_none_imp _ _ _ ?_ hres
    intro x hx
    have hxk : x = k := of_decide_eq_true hx
    rw [hxk, ← hkc]
    exact pyContains_slash _ _

theorem dictSet_fresh (L : List (String × AiEntry)) (k : String)
    (v : AiEntry) (h : findIdxAux (fun x => x = k) (keysOf L) = none) :
    dictSet L k v = L ++ [(k, v)] := by
  rw [dictSet, h]

theorem applyDefaults_titulo (r : Resultado) (e : AiEntry) :
    (applyDefaults r e).titulo ≠ none := by
  rw [applyDefaults, (adScore_rest _ _).1, (adRec_rest _ _).1,
    (adRiscos_rest _ _).1, (adPontos_rest _ _).1, (adValor_rest _ _).1]
  exact adTitulo_titulo r e

theorem applyDefaults_ne_empty (r : Resultado) (e : AiEntry) :
    applyDefaults r e ≠ ({} : AiEntry) := by
  intro h
  exact applyDefaults_titulo r e (by rw [h])

/-- No entry of the mapping is the empty (falsy) dict; feeds parsed from
the model answer satisfy this, and the loop only ever writes filled
entries. -/
def NoEmpty (L : List (String × AiEntry)) : Prop :=
  ∀ kv ∈ L, kv.2 ≠ ({} : AiEntry)

theorem dictSet_noempty (L : List (String × AiEntry)) (k : String)
    (v : AiEntry) (hv : v ≠ ({} : AiEntry)) (h : NoEmpty L) :
    NoEmpty (dictSet L k v) := by
  rw [dictSet]
  rcases findIdxAux (fun x => x = k) (keysOf L) with _ | j
  · dsimp only
    intro kv hkv
    rcases List.mem_append.mp hkv with hm | hm
    · exact h kv hm
    · rw [List.mem_singleton] at hm
      rw [hm]
      exact hv
  · dsimp only
    intro kv hkv
    rcases List.mem_or_eq_of_mem_set hkv with hm | hm
    · exact h kv hm
    · rw [hm]
      exact hv

theorem step_noempty (L : List (String × AiEntry)) (r : Resultado)
    (h : NoEmpty L) : NoEmpty (ensureStep L r) := by
  rw [ensureStep]
  rcases resolveIdx L r with _ | i
  · dsimp only
    rcases mkKey r with _ | k
    · exact h
    · exact dictSet_noempty L k _ (applyDefaults_ne_empty r _) h
  · dsimp only
    rcases hL : L[i]? with _ | kv0
    · exact h
    · dsimp only
      by_cases he : kv0.2 = ({} : AiEntry)
      · rw [if_pos he]
        rcases mkKey r with _ | k
        · exact h
        · dsimp only
          exact dictSet_noempty L k _ (applyDefaults_ne_empty r _) h
      · rw [if_neg he]
        intro kv hkv
        rcases List.mem_or_eq_of_mem_set hkv with hm | hm
        · exact h kv hm
        · rw [hm]
          exact applyDefaults_ne_empty r _

/-- The notice resolves to a position of the per-item mapping holding a
filled entry. -/
def ResFilled (L : List (String × AiEntry)) (r : Resultado) : Prop :=
  ∃ i kv, resolveIdx L r = some i ∧ L[i]? = some kv ∧ EntryFilled kv.2

theorem mkKey_isSome (r : Resultado)
    (hkey : truthyStr r.numeroControlePNCP = true
      ∨ truthyStr r.numeroCompra = true) :
    ∃ k, mkKey r = some k := by
  rw [mkKey]
  by_cases h1 : truthyStr r.numeroControlePNCP = true
  · rw [if_pos h1]
    rcases hx : r.numeroControlePNCP with _ | s
    · rw [hx] at h1
      exact absurd h1 (by simp [truthyStr])
    · exact ⟨s, rfl⟩
  · rw [if_neg h1]
    rcases hkey with h | h
    · exact absurd h h1
    · rw [if_pos h]
      exact ⟨_, rfl⟩

theorem step_establishes (L : List (String × AiEntry)) (r : Resultado)
    (hne : NoEmpty L) (hs : r.analise.score ≠ none)
    (hkey : truthyStr r.numeroControlePNCP = true
      ∨ truthyStr r.numeroCompra = true) :
    ResFilled (ensureStep L r) r := by
  rw [ensureStep]
  rcases hres : resolveIdx L r with _ | i
  · obtain ⟨k, hk⟩ := mkKey_isSome r hkey
    rw [hk]
    dsimp only
    rw [dictSet_fresh L k _ (mkKey_fresh L r k hres hk)]
    exact ⟨L.length, (k, applyDefaults r {}),
      resolveIdx_establish L r k _ hres hk,
      List.getElem?_concat_length L _, applyDefaults_filled r _ hs⟩
  · have hlt := resolveIdx_lt L r i hres
    have hget : L[i]? = some L[i] := List.getElem?_eq_getElem hlt
    dsimp only
    rw [hget]
    dsimp only
    rw [if_neg (hne L[i] (List.getElem_mem hlt))]
    refine ⟨i, (L[i].1, applyDefaults r L[i].2), ?_, ?_, ?_⟩
    · rw [resolveIdx_keys _ L r (keysOf_set L i L[i] _ hget)]
      exact hres
    · exact List.getElem?_set_self hlt
    · exact applyDefaults_filled r _ hs

theorem step_preserves (L : List (String × AiEntry)) (r r2 : Resultado)
    (hne : NoEmpty L) (hs2 : r2.analise.score ≠ none)
    (h : ResFilled L r) : ResFilled (ensureStep L r2) r := by
  obtain ⟨i, kv, hres, hget, hfill⟩ := h
  rw [ensureStep]
  rcases hres2 : resolveIdx L r2 with _ | j
  · rcases hk2 : mkKey r2 with _ | k2
    · exact ⟨i, kv, hres, hget, hfill⟩
    · dsimp only
      rw [dictSet_fresh L k2 _ (mkKey_fresh L r2 k2 hres2 hk2)]
      rcases resolveIdx_append L (k2, applyDefaults r2 {}) r i hres
        with ha | ha
      · refine ⟨i, kv, ha, ?_, hfill⟩
        rw [List.getElem?_append_left (resolveIdx_lt L r i hres)]
        exact hget
      · exact ⟨L.length, (k2, applyDefaults r2 {}), ha,
          List.getElem?_concat_length _ _, applyDefaults_filled r2 _ hs2⟩
  · have hlt2 := resolveIdx_lt L r2 j hres2
    have hget2 : L[j]? = some L[j] := List.getElem?_eq_getElem hlt2
    dsimp only
    rw [hget2]
    dsimp only
    rw [if_neg (hne L[j] (List.getElem_mem hlt2))]
    have hkeys := keysOf_set L j L[j] (applyDefaults r2 L[j].2) hget2
    by_cases hij : i = j
    · subst hij
      have hkv : kv = L[i] := by
        rw [hget] at hget2
        exact Option.some_injective _ hget2
      refine ⟨i, (L[i].1, applyDefaults r2 L[i].2), ?_, ?_, ?_⟩
      · rw [resolveIdx_keys _ L r hkeys]
        exact hres
      · exact List.getElem?_set_self hlt2
      · apply applyDefaults_keeps
        rw [← hkv]
        exact hfill
    · refine ⟨i, kv, ?_, ?_, hfill⟩
      · rw [resolveIdx_keys _ L r hkeys]
        exact hres
      · rw [List.getElem?_set_ne (fun he => hij he.symm)]
        exact hget

theorem foldl_preserves (rs : List Resultado) (r : Resultado) :
    ∀ L, (∀ r2 ∈ rs, r2.analise.score ≠ none) → NoEmpty L →
      ResFilled L r → ResFilled (rs.foldl ensureStep L) r := by
  induction rs with
  | nil => intro L _ _ h; exact h
  | cons r1 rest ih =>
    intro L hs hne h
    rw [List.foldl_cons]
    exact ih _ (fun r2 h2 => hs r2 (by simp [h2])) (step_noempty L r1 hne)
      (step_preserves L r r1 hne (hs r1 (by simp)) h)

theorem foldl_main (rs : List Resultado) (r : Resultado) :
    ∀ L, r ∈ rs → (∀ r2 ∈ rs, r2.analise.score ≠ none) → NoEmpty L →
      (truthyStr r.numeroControlePNCP = true
        ∨ truthyStr r.numeroCompra = true) →
      ResFilled (rs.foldl ensureStep L) r := by
  induction rs with
  | nil => intro L hr; simp at hr
  | cons r1 rest ih =>
    intro L hr hs hne hkey
    rw [List.foldl_cons]
    rcases List.mem_cons.mp hr with hr | hr
    · subst hr
      exact foldl_preserves rest r _ (fun r2 h2 => hs r2 (by simp [h2]))
        (step_noempty L r hne)
        (step_establishes L r hne (hs r (by simp)) hkey)
    · exact ih _ hr (fun r2 h2 => hs r2 (by simp [h2]))
        (step_noempty L r1 hne) hkey

/-- A notice with no identity key at all (the reconciler skips it). -/
def c7semChave : Resultado := {}

/-- A keyed notice whose local analysis has no score (the normalizer
never emits one, but `ensure_ai_defaults` accepts any notice list). -/
def c7semScore : Resultado := { numeroControlePNCP := some "PNCP-1" }

/-- A keyed notice with a local score, as the normalizer produces. -/
def c7ok : Resultado :=
  { numeroControlePNCP := some "W-1",
    analise := { score := some 55, recomendacao := some "analisar" } }

/-- C7 (amended): after `ensure_ai_defaults`, every Notice that carries an
identity key (control number or purchase number) resolves to a per-item
entry whose title and value-text keys are present and whose
recommendation and AI score are non-null — provided every notice in the
list has a non-null local score (which holds for every normalized
notice) and no pre-existing feed entry is an empty dict.  The original
claim's "every Notice" fails: keyless notices are skipped outright, and
a null local score is copied into `score_ai`, leaving it null (see the
counterexample). -/
theorem C7_theorem (ai : Option AiFeed) (rs : List Resultado) (r : Resultado)
    (hr : r ∈ rs)
    (hs : ∀ r2 ∈ rs, r2.analise.score ≠ none)
    (hne : ∀ kv ∈ (ai.map AiFeed.por_item).getD [], kv.2 ≠ ({} : AiEntry))
    (hkey : truthyStr r.numeroControlePNCP = true
      ∨ truthyStr r.numeroCompra = true) :
    ∃ e, resolve_ai_item (some (ensure_ai_defaults ai rs)) r = some e
      ∧ EntryFilled e := by
  obtain ⟨i, kv, hres, hget, hfill⟩ :=
    foldl_main rs r ((ai.map AiFeed.por_item).getD []) hr hs hne hkey
  refine ⟨kv.2, ?_, hfill⟩
  rw [ensure_ai_defaults, resolve_eq_resolveIdx, hres, Option.some_bind,
    hget]
  rfl

/-- C7 counterexample: a keyless notice gets no entry at all (the minimal
feed stays empty and resolution still fails afterwards), and a keyed
notice whose local analysis lacks a score ends with a null `score_ai`,
not a numeric one. -/
theorem C7_counterexample :
    (ensure_ai_defaults none [c7semChave]).por_item = []
    ∧ resolve_ai_item (some (ensure_ai_defaults none [c7semChave]))
        c7semChave = none
    ∧ (resolve_ai_item (some (ensure_ai_defaults none [c7semScore]))
        c7semScore).map AiEntry.score_ai = some (some none) :=
  ⟨rfl, rfl, rfl⟩

/-- C7 witness: a concrete keyed, scored notice obtains a resolvable
filled entry from the empty feed. -/
theorem C7_witness :
    ∃ e, resolve_ai_item (some (ensure_ai_defaults none [c7ok])) c7ok
      = some e ∧ EntryFilled e :=
  C7_theorem none [c7ok] c7ok (List.mem_singleton.mpr rfl)
    (by intro r2 h2; rw [List.mem_singleton] at h2; subst h2; decide)
    (by simp)
    (Or.inl rfl)

end Podium
